import Mathlib

/-!
Shallow embedding of the tavily-hikari reverse proxy core (`src/lib.rs`) and
proofs of the frozen claims about it.  Each definition mirrors one Rust item:
machine integers `i64` are modelled as `Int` (the code performs no wrapping
arithmetic on them), `Option<T>` database columns as `Option Int`, and the
SQLite tables touched by the claims as explicit Lean structures.
-/

namespace TavilyHikari

/-! ### Constants (from the top of `src/lib.rs`) -/

def TOKEN_HOURLY_LIMIT : Int := 100

def TOKEN_DAILY_LIMIT : Int := 500

def TOKEN_MONTHLY_LIMIT : Int := 3000

def TOKEN_AFFINITY_TTL_SECS : Int := 15 * 60

def TOKEN_AFFINITY_MAX_ENTRIES : Nat := 10000

def SECS_PER_MINUTE : Int := 60

def SECS_PER_HOUR : Int := 3600

/-! ### `TokenQuotaVerdict` (lib.rs 3987-4063) -/

inductive QuotaWindow where
  | hour
  | day
  | month
deriving DecidableEq, Repr

structure TokenQuotaVerdict where
  allowed : Bool
  exceeded_window : Option QuotaWindow
  hourly_used : Int
  hourly_limit : Int
  daily_used : Int
  daily_limit : Int
  monthly_used : Int
  monthly_limit : Int
deriving DecidableEq, Repr

/-- `TokenQuotaVerdict::new` (lib.rs 4000-4037): three sequential
`if used_raw > limit` assignments mutate `exceeded_window` / `allowed`,
then the displayed `*_used` values are clamped with `min`. -/
def TokenQuotaVerdict.new (hourly_used_raw hourly_limit daily_used_raw daily_limit
    monthly_used_raw monthly_limit : Int) : TokenQuotaVerdict :=
  let exceeded_window : Option QuotaWindow := none
  let allowed : Bool := true
  let s1 : Option QuotaWindow × Bool :=
    if hourly_used_raw > hourly_limit then (some QuotaWindow.hour, false)
    else (exceeded_window, allowed)
  let s2 : Option QuotaWindow × Bool :=
    if daily_used_raw > daily_limit then (some QuotaWindow.day, false)
    else s1
  let s3 : Option QuotaWindow × Bool :=
    if monthly_used_raw > monthly_limit then (some QuotaWindow.month, false)
    else s2
  { allowed := s3.2
    exceeded_window := s3.1
    hourly_used := min hourly_used_raw hourly_limit
    hourly_limit := hourly_limit
    daily_used := min daily_used_raw daily_limit
    daily_limit := daily_limit
    monthly_used := min monthly_used_raw monthly_limit
    monthly_limit := monthly_limit }

/-- **C3.** For all inputs to `TokenQuotaVerdict::new`: `allowed` is true iff no
raw usage strictly exceeds its limit; `exceeded_window` is assigned hour, then
day, then month with the last assignment winning (so `Hour` is surfaced when
only the hourly window is exceeded); and the returned used values are clamped
to `min raw limit`. -/
theorem token_quota_verdict_new_spec (hu hl du dl mu ml : Int) :
    ((TokenQuotaVerdict.new hu hl du dl mu ml).allowed = true ↔
      hu ≤ hl ∧ du ≤ dl ∧ mu ≤ ml) ∧
    (TokenQuotaVerdict.new hu hl du dl mu ml).exceeded_window =
      (if mu > ml then some QuotaWindow.month
       else if du > dl then some QuotaWindow.day
       else if hu > hl then some QuotaWindow.hour
       else none) ∧
    (hu > hl → du ≤ dl → mu ≤ ml →
      (TokenQuotaVerdict.new hu hl du dl mu ml).exceeded_window = some QuotaWindow.hour) ∧
    (TokenQuotaVerdict.new hu hl du dl mu ml).hourly_used = min hu hl ∧
    (TokenQuotaVerdict.new hu hl du dl mu ml).daily_used = min du dl ∧
    (TokenQuotaVerdict.new hu hl du dl mu ml).monthly_used = min mu ml := by
  by_cases h1 : hu > hl <;> by_cases h2 : du > dl <;> by_cases h3 : mu > ml <;>
    simp [TokenQuotaVerdict.new, h1, h2, h3] <;> omega

/-! ### JSON model and the response classifier (lib.rs 4291-4628)

`serde_json::Value` is modelled by `Json`.  Integer JSON numbers (the only
ones on which `as_i64` succeeds) are `num`; any other number is `numOther`,
whose accessors all fail, as in serde.  Object field lookup returns the
first binding with the requested name (serde maps have unique keys). -/

inductive Json where
  | null
  | bool (b : Bool)
  | num (n : Int)
  | numOther
  | str (s : String)
  | arr (items : List Json)
  | obj (fields : List (String × Json))
deriving Repr

def Json.get (v : Json) (key : String) : Option Json :=
  match v with
  | .obj fields => (fields.find? (fun f => f.1 == key)).map (·.2)
  | _ => none

def Json.as_i64 : Json → Option Int
  | .num n => some n
  | _ => none

def Json.as_bool : Json → Option Bool
  | .bool b => some b
  | _ => none

def Json.as_str : Json → Option String
  | .str s => some s
  | _ => none

def Json.as_array : Json → Option (List Json)
  | .arr items => some items
  | _ => none

/-- Rust's `str::to_ascii_lowercase`: lowercase the ASCII letters, leave every
other character unchanged (`(asciiLower Char)` is exactly the ASCII rule). -/
def asciiLower (s : String) : String :=
  String.mk (s.data.map Char.toLower)

/-- Rust's `str::eq_ignore_ascii_case`. -/
def eqIgnoreAsciiCase (a b : String) : Bool :=
  asciiLower a == asciiLower b

inductive MessageOutcome where
  | success
  | error
  | quotaExhausted
deriving DecidableEq, Repr

/-- Result-status strings stored in attempt logs (`OUTCOME_*`, lib.rs 25-28). -/
inductive ResultStatus where
  | success
  | error
  | quota_exhausted
  | unknown
deriving DecidableEq, Repr

structure AttemptAnalysis where
  status : ResultStatus
  mark_exhausted : Bool
  tavily_status_code : Option Int
deriving DecidableEq, Repr

/-- `classify_status_code` (lib.rs 4574-4582). -/
def classify_status_code (code : Int) : MessageOutcome :=
  if code = 432 then MessageOutcome.quotaExhausted
  else if code ≥ 400 then MessageOutcome.error
  else MessageOutcome.success

/-- `extract_status_code` (lib.rs 4560-4572). -/
def extract_status_code (value : Json) : Option Int :=
  match (value.get "status").bind Json.as_i64 with
  | some code => some code
  | none =>
    match value.get "detail" with
    | some detail => (detail.get "status").bind Json.as_i64
    | none => none

/-- `parse_embedded_status` (lib.rs 4584-4594).  The `serde_json::from_str`
text parser is passed in as `parse`; the claims settled here never depend on
its behaviour. -/
def parse_embedded_status (parse : String → Option Json) (text : String) : Option Int :=
  let trimmed := text.trim
  if ¬ trimmed.startsWith "\x7b" then none
  else
    (parse trimmed).bind (fun value =>
      (extract_status_code value).or ((value.get "status").bind Json.as_i64))

/-- The scan over `structuredContent.content[]` inside
`analyze_structured_content` (lib.rs 4544-4556). -/
def structured_content_scan (parse : String → Option Json) :
    List Json → Option (MessageOutcome × Option Int)
  | [] => none
  | item :: rest =>
    match (item.get "text").bind Json.as_str with
    | some text =>
      match parse_embedded_status parse text with
      | some code => some (classify_status_code code, some code)
      | none => structured_content_scan parse rest
    | none => structured_content_scan parse rest

/-- `analyze_structured_content` (lib.rs 4529-4558). -/
def analyze_structured_content (parse : String → Option Json) (result : Json) :
    Option (MessageOutcome × Option Int) :=
  match result.get "structuredContent" with
  | none => none
  | some structured =>
    match extract_status_code structured with
    | some code => some (classify_status_code code, some code)
    | none =>
      if ((structured.get "isError").bind Json.as_bool).getD false then
        some (MessageOutcome.error, none)
      else
        match (structured.get "content").bind Json.as_array with
        | some items =>
          ((structured_content_scan parse items).or (some (MessageOutcome.success, none)))
        | none => some (MessageOutcome.success, none)

/-- The scan over `result.content[]` inside `analyze_result_payload`
(lib.rs 4499-4512). -/
def result_content_scan (parse : String → Option Json) :
    List Json → Option (MessageOutcome × Option Int)
  | [] => none
  | item :: rest =>
    if (match (item.get "type").bind Json.as_str with
        | some kind => eqIgnoreAsciiCase kind "error"
        | none => false) then
      some (MessageOutcome.error, none)
    else
      match (item.get "text").bind Json.as_str with
      | some text =>
        match parse_embedded_status parse text with
        | some code => some (classify_status_code code, some code)
        | none => result_content_scan parse rest
      | none => result_content_scan parse rest

/-- The fall-through tail of `analyze_result_payload` (lib.rs 4514-4526). -/
def result_payload_tail (result : Json) : Option (MessageOutcome × Option Int) :=
  if (result.get "error").isSome then some (MessageOutcome.error, none)
  else if ((result.get "isError").bind Json.as_bool).getD false then
    some (MessageOutcome.error, none)
  else some (MessageOutcome.success, none)

/-- `analyze_result_payload` (lib.rs 4494-4527). -/
def analyze_result_payload (parse : String → Option Json) (result : Json) :
    Option (MessageOutcome × Option Int) :=
  match analyze_structured_content parse result with
  | some outcome => some outcome
  | none =>
    match (result.get "content").bind Json.as_array with
    | some content =>
      match result_content_scan parse content with
      | some r => some r
      | none => result_payload_tail result
    | none => result_payload_tail result

/-- `analyze_json_message` (lib.rs 4482-4492). -/
def analyze_json_message (parse : String → Option Json) (value : Json) :
    Option (MessageOutcome × Option Int) :=
  if (value.get "error").isSome then some (MessageOutcome.error, none)
  else
    match value.get "result" with
    | some result => analyze_result_payload parse result
    | none => none

/-- The byte-level stages of `analyze_attempt` (lib.rs 4314-4332): UTF-8
validation, SSE framing by `extract_sse_json_messages`, and the whole-body
`serde_json::from_str` fallback.  `invalidUtf8` stands for a body that is not
valid UTF-8; `text sse whole` stands for a UTF-8 body whose SSE extraction
yields the event documents `sse` and whose whole-body JSON parse yields
`whole`. -/
inductive BodyRep where
  | invalidUtf8
  | text (sse : List Json) (whole : Option Json)

/-- The message loop of `analyze_attempt` (lib.rs 4334-4371), carrying the
`any_success` and `detected_code` accumulators. -/
def analyze_attempt_loop (parse : String → Option Json) :
    List Json → Bool → Option Int → AttemptAnalysis
  | [], any_success, detected_code =>
    if any_success then
      { status := ResultStatus.success, mark_exhausted := false,
        tavily_status_code := detected_code }
    else
      { status := ResultStatus.unknown, mark_exhausted := false,
        tavily_status_code := detected_code }
  | message :: rest, any_success, detected_code =>
    match analyze_json_message parse message with
    | some (outcome, code) =>
      let detected_code := if detected_code.isNone then code else detected_code
      match outcome with
      | MessageOutcome.quotaExhausted =>
        { status := ResultStatus.quota_exhausted, mark_exhausted := true,
          tavily_status_code := code.or detected_code }
      | MessageOutcome.error =>
        { status := ResultStatus.error, mark_exhausted := false,
          tavily_status_code := code.or detected_code }
      | MessageOutcome.success => analyze_attempt_loop parse rest true detected_code
    | none => analyze_attempt_loop parse rest any_success detected_code

/-- `analyze_attempt` (lib.rs 4305-4372).  `status` is the HTTP status code;
`StatusCode::is_success` is `200 ≤ status < 300`. -/
def analyze_attempt (parse : String → Option Json) (status : Nat) (body : BodyRep) :
    AttemptAnalysis :=
  if ¬ (200 ≤ status ∧ status < 300) then
    { status := ResultStatus.error, mark_exhausted := false,
      tavily_status_code := some (Int.ofNat status) }
  else
    match body with
    | BodyRep.invalidUtf8 =>
      { status := ResultStatus.unknown, mark_exhausted := false, tavily_status_code := none }
    | BodyRep.text sse whole =>
      let messages :=
        if sse.isEmpty then
          match whole with
          | some value => [value]
          | none => []
        else sse
      analyze_attempt_loop parse messages false none

/-- The SSE event `{"result":{"structuredContent":{"status":432}}}`. -/
def quotaEvent : Json :=
  Json.obj [("result", Json.obj [("structuredContent", Json.obj [("status", Json.num 432)])])]

/-- The document `{"result":{"structuredContent":{"isError":true}}}`. -/
def isErrorEvent : Json :=
  Json.obj [("result", Json.obj [("structuredContent", Json.obj [("isError", Json.bool true)])])]

/-- **C2.** A 2xx body whose only SSE event is
`{"result":{"structuredContent":{"status":432}}}` classifies as
`quota_exhausted` with `tavily_status_code = 432` and `mark_exhausted` set;
a 2xx body carrying `{"result":{"structuredContent":{"isError":true}}}` (as
its only SSE event or as the whole-body document) classifies as `error`; and
every non-2xx HTTP status classifies as `error` regardless of body, with
`tavily_status_code` equal to the HTTP status. -/
theorem analyze_attempt_spec (parse : String → Option Json) :
    (∀ status : Nat, 200 ≤ status → status < 300 → ∀ whole,
      analyze_attempt parse status (BodyRep.text [quotaEvent] whole) =
        { status := ResultStatus.quota_exhausted, mark_exhausted := true,
          tavily_status_code := some 432 }) ∧
    (∀ status : Nat, 200 ≤ status → status < 300 → ∀ whole,
      analyze_attempt parse status (BodyRep.text [isErrorEvent] whole) =
        { status := ResultStatus.error, mark_exhausted := false,
          tavily_status_code := none }) ∧
    (∀ status : Nat, 200 ≤ status → status < 300 →
      analyze_attempt parse status (BodyRep.text [] (some isErrorEvent)) =
        { status := ResultStatus.error, mark_exhausted := false,
          tavily_status_code := none }) ∧
    (∀ status : Nat, ¬ (200 ≤ status ∧ status < 300) → ∀ body,
      analyze_attempt parse status body =
        { status := ResultStatus.error, mark_exhausted := false,
          tavily_status_code := some (Int.ofNat status) }) := by
  refine ⟨?_, ?_, ?_, ?_⟩
  · intro status h1 h2 whole
    have hc : ¬¬ (200 ≤ status ∧ status < 300) := not_not_intro (And.intro h1 h2)
    simp only [analyze_attempt]
    rw [if_neg hc]
    rfl
  · intro status h1 h2 whole
    have hc : ¬¬ (200 ≤ status ∧ status < 300) := not_not_intro (And.intro h1 h2)
    simp only [analyze_attempt]
    rw [if_neg hc]
    rfl
  · intro status h1 h2
    have hc : ¬¬ (200 ≤ status ∧ status < 300) := not_not_intro (And.intro h1 h2)
    simp only [analyze_attempt]
    rw [if_neg hc]
    rfl
  · intro status h body
    simp only [analyze_attempt, if_pos h]

/-- Witness for C2 at the concrete status 200. -/
theorem analyze_attempt_spec_witness :
    analyze_attempt (fun _ => none) 200 (BodyRep.text [quotaEvent] none) =
      { status := ResultStatus.quota_exhausted, mark_exhausted := true,
        tavily_status_code := some 432 } :=
  (analyze_attempt_spec (fun _ => none)).1 200 (by decide) (by decide) none

/-! ### Header sanitization (lib.rs 30-78, 4374-4454)

Header names and values are modelled as strings (http `HeaderName`s compare
case-insensitively; the code lowercases defensively with
`to_ascii_lowercase`, mirrored by `(asciiLower String)`).  `HeaderValue::from_str`
succeeds exactly on strings whose bytes are visible characters, `\t`, or
≥ 0x80; `headerValueFromStr` mirrors that check.  The `Referer` rewrite goes
through the `url` crate; it is passed in as the function `rewriteReferer` and
every theorem below holds for all such functions. -/

def BLOCKED_HEADERS : List String :=
  ["forwarded", "via", "x-forwarded-for", "x-forwarded-host", "x-forwarded-proto",
   "x-forwarded-port", "x-forwarded-server", "x-original-forwarded-for",
   "x-forwarded-protocol", "x-real-ip", "true-client-ip", "cf-connecting-ip",
   "cf-true-client-ip", "cf-ipcountry", "cf-ray", "cf-visitor", "x-cluster-client-ip",
   "x-proxy-user-ip", "fastly-client-ip", "proxy-authorization", "proxy-connection",
   "akamai-origin-hop", "x-akamai-edgescape", "x-akamai-forwarded-for", "cdn-loop"]

def ALLOWED_HEADERS : List String :=
  ["accept", "accept-encoding", "accept-language", "authorization", "cache-control",
   "content-type", "pragma", "user-agent", "sec-ch-ua", "sec-ch-ua-mobile",
   "sec-ch-ua-platform", "sec-fetch-site", "sec-fetch-mode", "sec-fetch-dest",
   "sec-fetch-user", "origin", "referer"]

def ALLOWED_PREFIXES : List String := ["x-mcp-", "x-tavily-", "tavily-"]

/-- `should_forward_header` (lib.rs 4402-4420). -/
def should_forward_header (name : String) : Bool :=
  let lower := (asciiLower name)
  if BLOCKED_HEADERS.contains lower then false
  else if ALLOWED_HEADERS.contains lower then true
  else if ALLOWED_PREFIXES.any (fun p => lower.startsWith p) then true
  else if lower.startsWith "x-" && !(lower.startsWith "x-forwarded-")
      && lower ≠ "x-real-ip" then true
  else false

/-- `http::HeaderValue::from_str`: succeeds iff every byte is `\t`, a visible
ASCII character, or ≥ 0x80. -/
def headerValueFromStr (s : String) : Option String :=
  if s.toList.all (fun c => c == '\t' || (32 ≤ c.toNat && c.toNat != 127)) then some s
  else none

/-- `transform_header_value` (lib.rs 4422-4454); the `Referer` branch
(`url` crate rewriting) is the parameter `rewriteReferer`. -/
def transform_header_value (rewriteReferer : String → Option String)
    (name value upstream_origin : String) : Option String :=
  let lower := (asciiLower name)
  if lower = "origin" then headerValueFromStr upstream_origin
  else if lower = "referer" then rewriteReferer value
  else if lower = "sec-fetch-site" then some "same-origin"
  else some value

structure SanitizedHeaders where
  headers : List (String × String)
  forwarded : List String
  dropped : List String

/-- `HeaderMap::insert`: replaces any existing values stored under the same
(case-insensitive) name. -/
def headerMapInsert (m : List (String × String)) (name value : String) :
    List (String × String) :=
  (m.filter (fun q => (asciiLower q.1) ≠ (asciiLower name))) ++ [(name, value)]

/-- One iteration of the loop in `sanitize_headers_inner` (lib.rs 4382-4394). -/
def sanitizeStep (rewriteReferer : String → Option String) (upstream_origin : String)
    (acc : SanitizedHeaders) (e : String × String) : SanitizedHeaders :=
  let key := (asciiLower e.1)
  if should_forward_header e.1 then
    match transform_header_value rewriteReferer e.1 e.2 upstream_origin with
    | some transformed =>
      { headers := headerMapInsert acc.headers e.1 transformed
        forwarded := acc.forwarded ++ [key]
        dropped := acc.dropped }
    | none =>
      { headers := acc.headers, forwarded := acc.forwarded, dropped := acc.dropped ++ [key] }
  else
    { headers := acc.headers, forwarded := acc.forwarded, dropped := acc.dropped ++ [key] }

/-- `sanitize_headers_inner` (lib.rs 4374-4400). -/
def sanitize_headers_inner (rewriteReferer : String → Option String)
    (headers : List (String × String)) (upstream_origin : String) : SanitizedHeaders :=
  headers.foldl (sanitizeStep rewriteReferer upstream_origin) ⟨[], [], []⟩

/-- Per-entry invariant of the forwarded header map. -/
def HeaderOk (upstream_origin : String) (p : String × String) : Prop :=
  BLOCKED_HEADERS.contains (asciiLower p.1) = false ∧
  ((asciiLower p.1) = "origin" → p.2 = upstream_origin) ∧
  ((asciiLower p.1) = "sec-fetch-site" → p.2 = "same-origin")

lemma should_forward_not_blocked {name : String} (h : should_forward_header name = true) :
    BLOCKED_HEADERS.contains (asciiLower name) = false := by
  by_contra hb
  rw [Bool.not_eq_false] at hb
  simp only [should_forward_header, hb, if_true] at h
  exact Bool.false_ne_true h

lemma transform_ok {rewriteReferer : String → Option String} {name value uo t : String}
    (hf : should_forward_header name = true)
    (ht : transform_header_value rewriteReferer name value uo = some t) :
    HeaderOk uo (name, t) := by
  refine ⟨should_forward_not_blocked hf, ?_, ?_⟩
  · intro ho
    simp only [transform_header_value, ho, if_pos] at ht
    simp only [headerValueFromStr] at ht
    split at ht
    · exact (Option.some.inj ht).symm
    · exact absurd ht (by simp)
  · intro ho
    simp only [transform_header_value, ho] at ht
    rw [if_neg (by decide), if_neg (by decide)] at ht
    exact (Option.some.inj ht).symm

lemma sanitizeStep_headers {rr : String → Option String} {uo : String}
    {acc : SanitizedHeaders} {e : String × String}
    (hacc : ∀ p ∈ acc.headers, HeaderOk uo p) :
    ∀ p ∈ (sanitizeStep rr uo acc e).headers, HeaderOk uo p := by
  intro p hp
  unfold sanitizeStep at hp
  by_cases hf : should_forward_header e.1
  · rw [if_pos hf] at hp
    cases ht : transform_header_value rr e.1 e.2 uo with
    | none => rw [ht] at hp; exact hacc p hp
    | some t =>
      rw [ht] at hp
      simp only [headerMapInsert, List.mem_append, List.mem_filter,
        List.mem_singleton] at hp
      rcases hp with ⟨hmem, _⟩ | rfl
      · exact hacc p hmem
      · exact transform_ok hf ht
  · rw [if_neg hf] at hp
    exact hacc p hp

lemma sanitizeStep_forwarded {rr : String → Option String} {uo : String}
    {acc : SanitizedHeaders} {e : String × String}
    (hacc : ∀ n ∈ acc.forwarded, BLOCKED_HEADERS.contains n = false) :
    ∀ n ∈ (sanitizeStep rr uo acc e).forwarded, BLOCKED_HEADERS.contains n = false := by
  intro n hn
  unfold sanitizeStep at hn
  by_cases hf : should_forward_header e.1
  · rw [if_pos hf] at hn
    cases ht : transform_header_value rr e.1 e.2 uo with
    | none => rw [ht] at hn; exact hacc n hn
    | some t =>
      rw [ht] at hn
      simp only [List.mem_append, List.mem_singleton] at hn
      rcases hn with hn | rfl
      · exact hacc n hn
      · exact should_forward_not_blocked hf
  · rw [if_neg hf] at hn
    exact hacc n hn

lemma sanitizeStep_dropped_mono {rr : String → Option String} {uo : String}
    {acc : SanitizedHeaders} {e : String × String} {x : String}
    (hx : x ∈ acc.dropped) : x ∈ (sanitizeStep rr uo acc e).dropped := by
  unfold sanitizeStep
  by_cases hf : should_forward_header e.1
  · rw [if_pos hf]
    cases transform_header_value rr e.1 e.2 uo with
    | none => exact List.mem_append_left _ hx
    | some t => exact hx
  · rw [if_neg hf]
    exact List.mem_append_left _ hx

lemma sanitizeStep_forwarded_mono {rr : String → Option String} {uo : String}
    {acc : SanitizedHeaders} {e : String × String} {x : String}
    (hx : x ∈ acc.forwarded) : x ∈ (sanitizeStep rr uo acc e).forwarded := by
  unfold sanitizeStep
  by_cases hf : should_forward_header e.1
  · rw [if_pos hf]
    cases transform_header_value rr e.1 e.2 uo with
    | none => exact hx
    | some t => exact List.mem_append_left _ hx
  · rw [if_neg hf]
    exact hx

lemma sanitizeStep_has_name {rr : String → Option String} {uo : String}
    {acc : SanitizedHeaders} {e : String × String} {nm : String}
    (h : ∃ p ∈ acc.headers, (asciiLower p.1) = nm) :
    ∃ p ∈ (sanitizeStep rr uo acc e).headers, (asciiLower p.1) = nm := by
  obtain ⟨p, hp, hpl⟩ := h
  unfold sanitizeStep
  by_cases hf : should_forward_header e.1
  · rw [if_pos hf]
    cases transform_header_value rr e.1 e.2 uo with
    | none => exact ⟨p, hp, hpl⟩
    | some t =>
      by_cases hcase : (asciiLower p.1) = (asciiLower e.1)
      · refine ⟨(e.1, t), ?_, ?_⟩
        · exact List.mem_append_right _ (List.mem_singleton.mpr rfl)
        · rw [← hcase, hpl]
      · refine ⟨p, ?_, hpl⟩
        exact List.mem_append_left _ (List.mem_filter.mpr ⟨hp, by simpa using hcase⟩)
  · rw [if_neg hf]
    exact ⟨p, hp, hpl⟩

lemma sanitizeFold_headers (rr : String → Option String) (uo : String)
    (hs : List (String × String)) :
    ∀ acc : SanitizedHeaders, (∀ p ∈ acc.headers, HeaderOk uo p) →
      ∀ p ∈ (hs.foldl (sanitizeStep rr uo) acc).headers, HeaderOk uo p := by
  induction hs with
  | nil => intro acc h; simpa using h
  | cons e rest ih =>
    intro acc h
    exact ih _ (sanitizeStep_headers h)

lemma sanitizeFold_forwarded (rr : String → Option String) (uo : String)
    (hs : List (String × String)) :
    ∀ acc : SanitizedHeaders, (∀ n ∈ acc.forwarded, BLOCKED_HEADERS.contains n = false) →
      ∀ n ∈ (hs.foldl (sanitizeStep rr uo) acc).forwarded,
        BLOCKED_HEADERS.contains n = false := by
  induction hs with
  | nil => intro acc h; simpa using h
  | cons e rest ih =>
    intro acc h
    exact ih _ (sanitizeStep_forwarded h)

lemma sanitizeFold_dropped_mono (rr : String → Option String) (uo : String)
    (hs : List (String × String)) :
    ∀ acc : SanitizedHeaders, ∀ x ∈ acc.dropped,
      x ∈ (hs.foldl (sanitizeStep rr uo) acc).dropped := by
  induction hs with
  | nil => intro acc x hx; simpa using hx
  | cons e rest ih =>
    intro acc x hx
    exact ih _ _ (sanitizeStep_dropped_mono hx)

lemma sanitizeFold_forwarded_mono (rr : String → Option String) (uo : String)
    (hs : List (String × String)) :
    ∀ acc : SanitizedHeaders, ∀ x ∈ acc.forwarded,
      x ∈ (hs.foldl (sanitizeStep rr uo) acc).forwarded := by
  induction hs with
  | nil => intro acc x hx; simpa using hx
  | cons e rest ih =>
    intro acc x hx
    exact ih _ _ (sanitizeStep_forwarded_mono hx)

lemma sanitizeFold_has_name (rr : String → Option String) (uo : String)
    (hs : List (String × String)) :
    ∀ acc : SanitizedHeaders, (∃ p ∈ acc.headers, (asciiLower p.1) = "accept") →
      ∃ p ∈ (hs.foldl (sanitizeStep rr uo) acc).headers, (asciiLower p.1) = "accept" := by
  induction hs with
  | nil => intro acc h; simpa using h
  | cons e rest ih =>
    intro acc h
    exact ih _ (sanitizeStep_has_name h)

lemma sanitizeStep_forward_case {rr : String → Option String} {uo : String}
    {acc : SanitizedHeaders} {e : String × String} {t : String}
    (hsf : should_forward_header e.1 = true)
    (htr : transform_header_value rr e.1 e.2 uo = some t) :
    sanitizeStep rr uo acc e =
      { headers := headerMapInsert acc.headers e.1 t
        forwarded := acc.forwarded ++ [(asciiLower e.1)]
        dropped := acc.dropped } := by
  simp only [sanitizeStep, hsf, htr, eq_self_iff_true, if_true]

lemma sanitizeStep_drop_case {rr : String → Option String} {uo : String}
    {acc : SanitizedHeaders} {e : String × String}
    (hsf : should_forward_header e.1 = false) :
    sanitizeStep rr uo acc e =
      { headers := acc.headers, forwarded := acc.forwarded,
        dropped := acc.dropped ++ [(asciiLower e.1)] } := by
  simp only [sanitizeStep, hsf, Bool.false_eq_true, if_false]

lemma sanitizeFold_xff (rr : String → Option String) (uo : String)
    (hs : List (String × String)) :
    ∀ acc : SanitizedHeaders, ∀ p ∈ hs, (asciiLower p.1) = "x-forwarded-for" →
      "x-forwarded-for" ∈ (hs.foldl (sanitizeStep rr uo) acc).dropped := by
  induction hs with
  | nil => intro acc p hp; simp at hp
  | cons e rest ih =>
    intro acc p hp hl
    simp only [List.foldl_cons]
    rcases List.mem_cons.mp hp with rfl | hp'
    · have hc : BLOCKED_HEADERS.contains "x-forwarded-for" = true := by decide
      have hsf : should_forward_header p.1 = false := by
        simp [should_forward_header, hl, hc]
        decide
      apply sanitizeFold_dropped_mono
      rw [sanitizeStep_drop_case hsf, hl]
      exact List.mem_append_right _ (List.mem_singleton.mpr rfl)
    · exact ih _ p hp' hl

lemma sanitizeFold_accept (rr : String → Option String) (uo : String)
    (hs : List (String × String)) :
    ∀ acc : SanitizedHeaders, ∀ p ∈ hs, (asciiLower p.1) = "accept" →
      "accept" ∈ (hs.foldl (sanitizeStep rr uo) acc).forwarded ∧
      ∃ q ∈ (hs.foldl (sanitizeStep rr uo) acc).headers, (asciiLower q.1) = "accept" := by
  induction hs with
  | nil => intro acc p hp; simp at hp
  | cons e rest ih =>
    intro acc p hp hl
    simp only [List.foldl_cons]
    rcases List.mem_cons.mp hp with rfl | hp'
    · have h1 : BLOCKED_HEADERS.contains "accept" = false := by decide
      have h2 : ALLOWED_HEADERS.contains "accept" = true := by decide
      have hsf : should_forward_header p.1 = true := by
        simp [should_forward_header, hl, h1, h2]
        decide
      have htr : transform_header_value rr p.1 p.2 uo = some p.2 := by
        simp only [transform_header_value, hl]
        rw [if_neg (by decide), if_neg (by decide), if_neg (by decide)]
      constructor
      · apply sanitizeFold_forwarded_mono
        rw [sanitizeStep_forward_case hsf htr, hl]
        exact List.mem_append_right _ (List.mem_singleton.mpr rfl)
      · apply sanitizeFold_has_name
        refine ⟨(p.1, p.2), ?_, hl⟩
        rw [sanitizeStep_forward_case hsf htr]
        exact List.mem_append_right _ (List.mem_singleton.mpr rfl)
    · exact ih _ p hp' hl

/-- **C4.** For every input header map, header sanitization forwards no header
on the blocked list (neither in the forwarded map nor in the recorded
`forwarded` name list); every `x-forwarded-for` header lands in the dropped
list; every `accept` header is forwarded; every forwarded `origin` header's
value is exactly the upstream's origin string; and every forwarded
`sec-fetch-site` header's value is the fixed string `same-origin`.  The
statement holds for every `Referer` rewriting function. -/
theorem sanitize_headers_inner_spec (rewriteReferer : String → Option String)
    (headers : List (String × String)) (upstream_origin : String) :
    (∀ p ∈ (sanitize_headers_inner rewriteReferer headers upstream_origin).headers,
      BLOCKED_HEADERS.contains (asciiLower p.1) = false) ∧
    (∀ n ∈ (sanitize_headers_inner rewriteReferer headers upstream_origin).forwarded,
      BLOCKED_HEADERS.contains n = false) ∧
    (∀ p ∈ headers, (asciiLower p.1) = "x-forwarded-for" →
      "x-forwarded-for" ∈ (sanitize_headers_inner rewriteReferer headers upstream_origin).dropped) ∧
    (∀ p ∈ headers, (asciiLower p.1) = "accept" →
      "accept" ∈ (sanitize_headers_inner rewriteReferer headers upstream_origin).forwarded ∧
      ∃ q ∈ (sanitize_headers_inner rewriteReferer headers upstream_origin).headers,
        (asciiLower q.1) = "accept") ∧
    (∀ p ∈ (sanitize_headers_inner rewriteReferer headers upstream_origin).headers,
      (asciiLower p.1) = "origin" → p.2 = upstream_origin) ∧
    (∀ p ∈ (sanitize_headers_inner rewriteReferer headers upstream_origin).headers,
      (asciiLower p.1) = "sec-fetch-site" → p.2 = "same-origin") := by
  have hok : ∀ p ∈ (sanitize_headers_inner rewriteReferer headers upstream_origin).headers,
      HeaderOk upstream_origin p :=
    sanitizeFold_headers rewriteReferer upstream_origin headers ⟨[], [], []⟩ (by simp)
  refine ⟨fun p hp => (hok p hp).1, ?_, ?_, ?_, fun p hp => (hok p hp).2.1,
    fun p hp => (hok p hp).2.2⟩
  · exact sanitizeFold_forwarded rewriteReferer upstream_origin headers ⟨[], [], []⟩ (by simp)
  · exact fun p hp hl => sanitizeFold_xff rewriteReferer upstream_origin headers ⟨[], [], []⟩ p hp hl
  · exact fun p hp hl =>
      sanitizeFold_accept rewriteReferer upstream_origin headers ⟨[], [], []⟩ p hp hl

/-- Witness for C4 on the concrete header map of test scenario S5. -/
theorem sanitize_headers_inner_spec_witness :
    ("X-Forwarded-For", "1.2.3.4") ∈
        [("X-Forwarded-For", "1.2.3.4"), ("Accept", "application/json")] ∧
    "x-forwarded-for" ∈
      (sanitize_headers_inner (fun _ => none)
        [("X-Forwarded-For", "1.2.3.4"), ("Accept", "application/json")]
        "https://mcp.tavily.com").dropped :=
  ⟨by decide,
    (sanitize_headers_inner_spec (fun _ => none)
        [("X-Forwarded-For", "1.2.3.4"), ("Accept", "application/json")]
        "https://mcp.tavily.com").2.2.1
      ("X-Forwarded-For", "1.2.3.4") (by decide) (by decide)⟩

/-! ### Token→key affinity cache (lib.rs 115-195)

The `HashMap<String, TokenAffinity>` is modelled as an association list with
at most one entry per token; `HashMap::insert` removes any previous binding
for the key and appends the new one, `HashMap::remove` filters it out, and
`len` is the list length.  `Vec::sort_by_key` is the stable `mergeSort`. -/

structure TokenAffinity where
  key_id : String
  expires_at : Int
deriving DecidableEq, Repr

structure TokenAffinityState where
  ttl_secs : Int
  mappings : List (String × TokenAffinity)
deriving DecidableEq, Repr

def TokenAffinityState.new (ttl_secs : Int) : TokenAffinityState :=
  { ttl_secs := ttl_secs, mappings := [] }

/-- `HashMap::get`. -/
def affLookup (m : List (String × TokenAffinity)) (token_id : String) :
    Option TokenAffinity :=
  (m.find? (fun e => e.1 == token_id)).map (·.2)

/-- `HashMap::remove`. -/
def affRemove (m : List (String × TokenAffinity)) (token_id : String) :
    List (String × TokenAffinity) :=
  m.filter (fun e => e.1 ≠ token_id)

/-- `HashMap::insert` (replaces any existing binding). -/
def affInsert (m : List (String × TokenAffinity)) (token_id : String)
    (v : TokenAffinity) : List (String × TokenAffinity) :=
  affRemove m token_id ++ [(token_id, v)]

/-- `TokenAffinityState::get_candidate` (lib.rs 136-145): returns the live
affinity key and the possibly-cleaned state. -/
def TokenAffinityState.get_candidate (st : TokenAffinityState) (token_id : String)
    (now_ts : Int) : Option String × TokenAffinityState :=
  match affLookup st.mappings token_id with
  | some entry =>
    if entry.expires_at > now_ts then (some entry.key_id, st)
    else (none, { st with mappings := affRemove st.mappings token_id })
  | none => (none, st)

/-- The eviction stage of `TokenAffinityState::prune` (lib.rs 178-193): sort
the surviving entries by `expires_at` ascending (stable, as `sort_by_key`)
and remove the keys of the first `len - max(cap/2, 1)` of them. -/
@[irreducible] def pruneEvict (retained : List (String × TokenAffinity)) :
    List (String × TokenAffinity) :=
  let entries := retained.map (fun e => (e.1, e.2.expires_at))
  let sorted := entries.mergeSort (fun a b => decide (a.2 ≤ b.2))
  let target_len := TOKEN_AFFINITY_MAX_ENTRIES / 2
  let to_remove := retained.length - max target_len 1
  (sorted.take to_remove).foldl (fun m e => affRemove m e.1) retained

/-- `TokenAffinityState::prune` (lib.rs 170-194). -/
def TokenAffinityState.prune (st : TokenAffinityState) (now_ts : Int) :
    TokenAffinityState :=
  let retained := st.mappings.filter (fun e => e.2.expires_at > now_ts)
  if retained.length ≤ TOKEN_AFFINITY_MAX_ENTRIES then { st with mappings := retained }
  else { st with mappings := pruneEvict retained }

/-- `TokenAffinityState::record_mapping` (lib.rs 148-162). -/
def TokenAffinityState.record_mapping (st : TokenAffinityState)
    (token_id key_id : String) (now_ts : Int) : TokenAffinityState :=
  let st := if st.mappings.length ≥ TOKEN_AFFINITY_MAX_ENTRIES then st.prune now_ts else st
  let expires_at := now_ts + st.ttl_secs
  { st with mappings := affInsert st.mappings token_id ⟨key_id, expires_at⟩ }

/-- `TokenAffinityState::drop_mapping` (lib.rs 165-167). -/
def TokenAffinityState.drop_mapping (st : TokenAffinityState) (token_id : String) :
    TokenAffinityState :=
  { st with mappings := affRemove st.mappings token_id }

lemma affLookup_insert (m : List (String × TokenAffinity)) (T : String)
    (v : TokenAffinity) : affLookup (affInsert m T v) T = some v := by
  have hnone : (affRemove m T).find? (fun e => e.1 == T) = none := by
    rw [List.find?_eq_none]
    intro e he
    have := List.of_mem_filter he
    simpa using this
  simp [affInsert, affLookup, List.find?_append, hnone]

lemma prune_ttl (st : TokenAffinityState) (now : Int) :
    (st.prune now).ttl_secs = st.ttl_secs := by
  simp only [TokenAffinityState.prune]
  split <;> rfl

lemma record_ttl (st : TokenAffinityState) (T K : String) (t : Int) :
    (st.record_mapping T K t).ttl_secs = st.ttl_secs := by
  simp only [TokenAffinityState.record_mapping]
  split
  · simp [prune_ttl]
  · rfl

lemma record_mappings (st : TokenAffinityState) (T K : String) (t : Int) :
    (st.record_mapping T K t).mappings =
      affInsert (if TOKEN_AFFINITY_MAX_ENTRIES ≤ st.mappings.length then st.prune t
        else st).mappings T ⟨K, t + st.ttl_secs⟩ := by
  simp only [TokenAffinityState.record_mapping, ge_iff_le]
  split
  · simp [prune_ttl]
  · rfl

lemma get_candidate_record (st : TokenAffinityState) (T K : String) (t now : Int) :
    ((st.record_mapping T K t).get_candidate T now).1 =
      if t + st.ttl_secs > now then some K else none := by
  simp only [TokenAffinityState.get_candidate, record_mappings, affLookup_insert,
    apply_ite Prod.fst]

/-- **C5 (amended).** After `record_mapping (T, K)` at time `t` on a state with
the production TTL of 15 minutes, `get_candidate (T, t + Δ)` returns `Some K`
iff `Δ < 15` minutes (strictly: at `Δ = 900` seconds the entry is already
expired, because the liveness test `expires_at > now` is strict); overwriting
with `record_mapping (T, K')` at time `t2` makes subsequent in-window lookups
return `Some K'`. -/
theorem affinity_ttl_spec (st : TokenAffinityState)
    (h : st.ttl_secs = TOKEN_AFFINITY_TTL_SECS) (T K K2 : String) (t t2 u Δ : Int)
    (hΔ : 0 ≤ Δ) :
    (((st.record_mapping T K t).get_candidate T (t + Δ)).1 =
      if Δ < TOKEN_AFFINITY_TTL_SECS then some K else none) ∧
    ((((st.record_mapping T K t).record_mapping T K2 t2).get_candidate T u).1 =
      if u < t2 + TOKEN_AFFINITY_TTL_SECS then some K2 else none) := by
  constructor
  · rw [get_candidate_record, h]
    by_cases hc : Δ < TOKEN_AFFINITY_TTL_SECS
    · rw [if_pos (by omega), if_pos hc]
    · rw [if_neg (by omega), if_neg hc]
  · rw [get_candidate_record, record_ttl, h]

/-- Witness for C5 at `Δ = 0` on the empty state. -/
theorem affinity_ttl_spec_witness :
    (((TokenAffinityState.new TOKEN_AFFINITY_TTL_SECS).record_mapping
        "T" "K" 0).get_candidate "T" (0 + 0)).1 =
      if (0 : Int) < TOKEN_AFFINITY_TTL_SECS then some "K" else none :=
  (affinity_ttl_spec (TokenAffinityState.new TOKEN_AFFINITY_TTL_SECS) rfl
    "T" "K" "K" 0 0 0 0 (by decide)).1

/-- **C5 counterexample.** The claim as stated says `Some K` is returned for
every `Δ ≤ 15` minutes, but at `Δ = 900` seconds exactly the code returns
`None` (`expires_at > now` is strict). -/
theorem affinity_ttl_claim_counterexample :
    (900 : Int) ≤ TOKEN_AFFINITY_TTL_SECS ∧
    (((TokenAffinityState.new TOKEN_AFFINITY_TTL_SECS).record_mapping
        "T" "K" 0).get_candidate "T" (0 + 900)).1 = none := by
  constructor
  · decide
  · rfl

def affKeys (m : List (String × TokenAffinity)) : List String := m.map Prod.fst

lemma affRemove_sublist (m : List (String × TokenAffinity)) (k : String) :
    (affRemove m k).Sublist m := List.filter_sublist m

lemma affRemove_length_le (m : List (String × TokenAffinity)) (k : String) :
    (affRemove m k).length ≤ m.length := (affRemove_sublist m k).length_le

lemma affKeys_affRemove_nodup {m : List (String × TokenAffinity)} {k : String}
    (h : (affKeys m).Nodup) : (affKeys (affRemove m k)).Nodup :=
  ((affRemove_sublist m k).map Prod.fst).nodup h

lemma affRemove_eq_self {m : List (String × TokenAffinity)} {k : String}
    (h : ∀ e ∈ m, e.1 ≠ k) : affRemove m k = m := by
  rw [affRemove, List.filter_eq_self]
  intro e he
  simpa using h e he

lemma mem_affKeys_affRemove {m : List (String × TokenAffinity)} {k k2 : String}
    (hk2 : k2 ∈ affKeys m) (hne : k2 ≠ k) : k2 ∈ affKeys (affRemove m k) := by
  obtain ⟨e, he, hfst⟩ := List.mem_map.mp hk2
  refine List.mem_map.mpr ⟨e, ?_, hfst⟩
  refine List.mem_filter.mpr ⟨he, ?_⟩
  simp [hfst, hne]

lemma affRemove_length_of_mem {m : List (String × TokenAffinity)} {k : String}
    (hnd : (affKeys m).Nodup) (hk : k ∈ affKeys m) :
    (affRemove m k).length + 1 = m.length := by
  induction m with
  | nil => simp [affKeys] at hk
  | cons e rest ih =>
    rw [affKeys, List.map_cons, List.nodup_cons] at hnd
    rcases List.mem_map.mp hk with ⟨e2, he2, hfst⟩
    rcases List.mem_cons.mp he2 with rfl | hrest
    · have hnot : ∀ e3 ∈ rest, e3.1 ≠ k := by
        intro e3 he3 heq
        exact hnd.1 (hfst ▸ heq ▸ List.mem_map.mpr ⟨e3, he3, rfl⟩)
      rw [affRemove, List.filter_cons]
      rw [if_neg (by simp [hfst])]
      rw [← affRemove, affRemove_eq_self hnot]
      simp
    · have hkrest : k ∈ affKeys rest := List.mem_map.mpr ⟨e2, hrest, hfst⟩
      have hne : e.1 ≠ k := by
        intro heq
        exact hnd.1 (heq ▸ hkrest)
      rw [affRemove, List.filter_cons, if_pos (by simp [hne])]
      rw [List.length_cons, ← affRemove, ih hnd.2 hkrest, List.length_cons]

lemma affInsert_length_le (m : List (String × TokenAffinity)) (k : String)
    (v : TokenAffinity) : (affInsert m k v).length ≤ m.length + 1 := by
  rw [affInsert, List.length_append, List.length_singleton]
  exact Nat.add_le_add_right (affRemove_length_le m k) 1

lemma affKeys_affInsert_nodup {m : List (String × TokenAffinity)} {k : String}
    {v : TokenAffinity} (h : (affKeys m).Nodup) :
    (affKeys (affInsert m k v)).Nodup := by
  rw [affInsert, affKeys, List.map_append]
  rw [List.nodup_append]
  refine ⟨affKeys_affRemove_nodup h, by simp, ?_⟩
  intro x hx
  obtain ⟨e, he, hfst⟩ := List.mem_map.mp hx
  have := List.of_mem_filter he
  simp only [List.map_cons, List.map_nil, List.mem_singleton]
  intro hxk
  rw [hxk] at hfst
  exact absurd hfst (by simpa using this)

lemma foldl_affRemove_length (ks : List String) :
    ∀ m : List (String × TokenAffinity), (affKeys m).Nodup → ks.Nodup →
      (∀ k ∈ ks, k ∈ affKeys m) →
      (ks.foldl affRemove m).length + ks.length = m.length := by
  induction ks with
  | nil => intro m _ _ _; simp
  | cons k rest ih =>
    intro m hmnd hknd hsub
    rw [List.foldl_cons]
    have hk : k ∈ affKeys m := hsub k (List.mem_cons_self k rest)
    have hrm : (affRemove m k).length + 1 = m.length := affRemove_length_of_mem hmnd hk
    rw [List.nodup_cons] at hknd
    have hrec := ih (affRemove m k) (affKeys_affRemove_nodup hmnd) hknd.2 ?_
    · rw [List.length_cons]
      omega
    · intro k2 hk2
      exact mem_affKeys_affRemove (hsub k2 (List.mem_cons_of_mem k hk2))
        (fun heq => hknd.1 (heq ▸ hk2))

lemma foldl_affRemove_nodup (ks : List String) :
    ∀ m : List (String × TokenAffinity), (affKeys m).Nodup →
      (affKeys (ks.foldl affRemove m)).Nodup := by
  induction ks with
  | nil => intro m h; simpa using h
  | cons k rest ih =>
    intro m h
    rw [List.foldl_cons]
    exact ih _ (affKeys_affRemove_nodup h)

lemma pruneEvict_length_le (retained : List (String × TokenAffinity))
    (hnd : (affKeys retained).Nodup) :
    (pruneEvict retained).length ≤ TOKEN_AFFINITY_MAX_ENTRIES := by
  have hm : max (TOKEN_AFFINITY_MAX_ENTRIES / 2) 1 = 5000 := by decide
  rw [pruneEvict]
  set entries := retained.map (fun e => (e.1, e.2.expires_at)) with hent
  set sorted := entries.mergeSort (fun a b => decide (a.2 ≤ b.2)) with hsort
  set tr := retained.length - max (TOKEN_AFFINITY_MAX_ENTRIES / 2) 1 with htr
  have hperm : sorted.Perm entries := List.mergeSort_perm entries _
  have hkeys : entries.map Prod.fst = affKeys retained := by
    rw [hent, List.map_map]
    rfl
  have hpermk : (sorted.map Prod.fst).Perm (affKeys retained) := by
    rw [← hkeys]
    exact hperm.map Prod.fst
  have hlen : sorted.length = retained.length := by
    rw [hperm.length_eq, hent, List.length_map]
  have hfold : ((sorted.take tr).foldl (fun m e => affRemove m e.1) retained) =
      (((sorted.take tr).map Prod.fst).foldl affRemove retained) := by
    rw [List.foldl_map]
  rw [hfold]
  set ks := (sorted.take tr).map Prod.fst with hks
  have hks2 : ks = (sorted.map Prod.fst).take tr := by
    rw [hks, List.map_take]
  have hksnd : ks.Nodup := by
    rw [hks2]
    exact ((List.take_sublist tr _).nodup) (hpermk.nodup_iff.mpr hnd)
  have hkssub : ∀ k ∈ ks, k ∈ affKeys retained := by
    intro k hk
    rw [hks2] at hk
    exact hpermk.mem_iff.mp ((List.take_sublist tr _).subset hk)
  have hkslen : ks.length = min tr retained.length := by
    rw [hks, List.length_map, List.length_take, hlen]
  have := foldl_affRemove_length ks retained hnd hksnd hkssub
  omega

lemma prune_length_le (st : TokenAffinityState) (now : Int)
    (hnd : (affKeys st.mappings).Nodup) :
    (st.prune now).mappings.length ≤ TOKEN_AFFINITY_MAX_ENTRIES := by
  have hretnd : (affKeys (st.mappings.filter
      (fun e => e.2.expires_at > now))).Nodup :=
    ((List.filter_sublist st.mappings).map Prod.fst).nodup hnd
  simp only [TokenAffinityState.prune]
  split
  · rename_i hle
    exact hle
  · exact pruneEvict_length_le _ hretnd

lemma foldl_affRemove_pairs_nodup (l : List (String × Int)) :
    ∀ m : List (String × TokenAffinity), (affKeys m).Nodup →
      (affKeys (l.foldl (fun m2 e => affRemove m2 e.1) m)).Nodup := by
  induction l with
  | nil => intro m h; simpa using h
  | cons e rest ih =>
    intro m h
    rw [List.foldl_cons]
    exact ih _ (affKeys_affRemove_nodup h)

lemma pruneEvict_keys_nodup (retained : List (String × TokenAffinity))
    (hnd : (affKeys retained).Nodup) :
    (affKeys (pruneEvict retained)).Nodup := by
  rw [pruneEvict]
  exact foldl_affRemove_pairs_nodup _ retained hnd

lemma prune_keys_nodup (st : TokenAffinityState) (now : Int)
    (hnd : (affKeys st.mappings).Nodup) :
    (affKeys (st.prune now).mappings).Nodup := by
  have hretnd : (affKeys (st.mappings.filter
      (fun e => e.2.expires_at > now))).Nodup :=
    ((List.filter_sublist st.mappings).map Prod.fst).nodup hnd
  simp only [TokenAffinityState.prune]
  split
  · exact hretnd
  · exact pruneEvict_keys_nodup _ hretnd

lemma record_length_le (st : TokenAffinityState) (T K : String) (t : Int)
    (hnd : (affKeys st.mappings).Nodup) :
    (st.record_mapping T K t).mappings.length ≤ TOKEN_AFFINITY_MAX_ENTRIES + 1 := by
  rw [record_mappings]
  refine le_trans (affInsert_length_le _ _ _) ?_
  split
  · exact Nat.add_le_add_right (prune_length_le st t hnd) 1
  · rename_i hlt
    omega

lemma record_keys_nodup (st : TokenAffinityState) (T K : String) (t : Int)
    (hnd : (affKeys st.mappings).Nodup) :
    (affKeys (st.record_mapping T K t).mappings).Nodup := by
  rw [record_mappings]
  apply affKeys_affInsert_nodup
  split
  · exact prune_keys_nodup st t hnd
  · exact hnd

lemma get_candidate_state (st : TokenAffinityState) (T : String) (t : Int) :
    ((st.get_candidate T t).2).mappings = st.mappings ∨
    ((st.get_candidate T t).2).mappings = affRemove st.mappings T := by
  cases hl : affLookup st.mappings T with
  | none =>
    left
    simp [TokenAffinityState.get_candidate, hl]
  | some entry =>
    by_cases hc : entry.expires_at > t
    · left
      simp [TokenAffinityState.get_candidate, hl, hc]
    · right
      simp [TokenAffinityState.get_candidate, hl, hc]

/-- One client-visible operation on the affinity cache. -/
inductive AffinityOp where
  | record (token_id key_id : String) (now_ts : Int)
  | get (token_id : String) (now_ts : Int)
  | drop (token_id : String)

def applyAffinityOp (st : TokenAffinityState) : AffinityOp → TokenAffinityState
  | .record T K t => st.record_mapping T K t
  | .get T t => (st.get_candidate T t).2
  | .drop T => st.drop_mapping T

def runAffinityOps (st : TokenAffinityState) (ops : List AffinityOp) :
    TokenAffinityState :=
  ops.foldl applyAffinityOp st

lemma applyAffinityOp_inv (st : TokenAffinityState) (op : AffinityOp)
    (h : (affKeys st.mappings).Nodup ∧
      st.mappings.length ≤ TOKEN_AFFINITY_MAX_ENTRIES + 1) :
    (affKeys (applyAffinityOp st op).mappings).Nodup ∧
      (applyAffinityOp st op).mappings.length ≤ TOKEN_AFFINITY_MAX_ENTRIES + 1 := by
  cases op with
  | record T K t =>
    exact ⟨record_keys_nodup st T K t h.1, record_length_le st T K t h.1⟩
  | get T t =>
    rcases get_candidate_state st T t with heq | heq
    · rw [applyAffinityOp, heq]
      exact h
    · rw [applyAffinityOp, heq]
      exact ⟨affKeys_affRemove_nodup h.1, le_trans (affRemove_length_le _ _) h.2⟩
  | drop T =>
    exact ⟨affKeys_affRemove_nodup h.1, le_trans (affRemove_length_le _ _) h.2⟩

/-- **C6 (amended).** Starting from the empty affinity cache, after any
sequence of `record_mapping`, `get_candidate` and `drop_mapping` operations
the number of stored mappings is at most 10,001 — one more than the hard cap,
because `record_mapping` prunes before inserting and the prune pass does not
evict anything when the map holds exactly 10,000 live entries, so the
insertion itself can transiently reach 10,001.  Since this holds for every
operation sequence it holds at every intermediate point of any sequence. -/
theorem affinity_bound_spec (ttl : Int) (ops : List AffinityOp) :
    (runAffinityOps (TokenAffinityState.new ttl) ops).mappings.length ≤
      TOKEN_AFFINITY_MAX_ENTRIES + 1 := by
  suffices h : ∀ st : TokenAffinityState,
      (affKeys st.mappings).Nodup ∧ st.mappings.length ≤ TOKEN_AFFINITY_MAX_ENTRIES + 1 →
      (affKeys (runAffinityOps st ops).mappings).Nodup ∧
        (runAffinityOps st ops).mappings.length ≤ TOKEN_AFFINITY_MAX_ENTRIES + 1 by
    exact (h (TokenAffinityState.new ttl) ⟨by simp [TokenAffinityState.new, affKeys], by
      simp [TokenAffinityState.new]⟩).2
  induction ops with
  | nil => intro st h; simpa [runAffinityOps] using h
  | cons op rest ih =>
    intro st h
    rw [runAffinityOps, List.foldl_cons]
    exact ih _ (applyAffinityOp_inv st op h)

def affinityTok (i : Nat) : String := String.mk (List.replicate i 'a')

lemma affinityTok_inj {i j : Nat} (h : affinityTok i = affinityTok j) : i = j := by
  have hlen := congrArg String.length h
  simpa [affinityTok, String.length] using hlen

/-- `record_mapping` calls for `n` pairwise-distinct tokens, all at time 0. -/
def fillOps (n : Nat) : List AffinityOp :=
  (List.range n).map (fun i => AffinityOp.record (affinityTok i) "K" 0)

def fillEntry (i : Nat) : String × TokenAffinity :=
  (affinityTok i, ⟨"K", 0 + TOKEN_AFFINITY_TTL_SECS⟩)

lemma runAffinityOps_append_one (st : TokenAffinityState) (ops : List AffinityOp)
    (op : AffinityOp) :
    runAffinityOps st (ops ++ [op]) = applyAffinityOp (runAffinityOps st ops) op := by
  rw [runAffinityOps, List.foldl_append, List.foldl_cons, List.foldl_nil, runAffinityOps]

lemma fillEntry_fresh (n : Nat) :
    ∀ e ∈ (List.range n).map fillEntry, e.1 ≠ affinityTok n := by
  intro e he
  obtain ⟨i, hi, rfl⟩ := List.mem_map.mp he
  intro heq
  have h1 := affinityTok_inj heq
  have h2 := List.mem_range.mp hi
  omega

lemma fill_state (n : Nat) (hn : n ≤ TOKEN_AFFINITY_MAX_ENTRIES) :
    (runAffinityOps (TokenAffinityState.new TOKEN_AFFINITY_TTL_SECS)
        (fillOps n)).mappings = (List.range n).map fillEntry ∧
    (runAffinityOps (TokenAffinityState.new TOKEN_AFFINITY_TTL_SECS)
        (fillOps n)).ttl_secs = TOKEN_AFFINITY_TTL_SECS := by
  induction n with
  | zero => exact ⟨rfl, rfl⟩
  | succ n ih =>
    obtain ⟨hmap, httl⟩ := ih (by omega)
    have hsplit : fillOps (n + 1) =
        fillOps n ++ [AffinityOp.record (affinityTok n) "K" 0] := by
      rw [fillOps, fillOps, List.range_succ, List.map_append]
      rfl
    rw [hsplit, runAffinityOps_append_one]
    simp only [applyAffinityOp]
    have hlen : (runAffinityOps (TokenAffinityState.new TOKEN_AFFINITY_TTL_SECS)
        (fillOps n)).mappings.length = n := by
      rw [hmap, List.length_map, List.length_range]
    constructor
    · rw [record_mappings, httl]
      rw [if_neg (by rw [hlen]; omega)]
      rw [hmap, affInsert, affRemove_eq_self (fillEntry_fresh n)]
      rw [List.range_succ, List.map_append]
      rfl
    · rw [record_ttl, httl]

/-- **C6 counterexample.** After inserting 10,001 distinct `(token, key)` pairs
at one instant, the map momentarily holds 10,001 entries: the pre-insert prune
at the cap evicts nothing (no entry is expired and the map is not *above* the
cap), and then the insertion pushes the size to cap + 1, contradicting the
claim that the size is at most 10,000 at all times. -/
theorem affinity_bound_claim_counterexample :
    TOKEN_AFFINITY_MAX_ENTRIES <
      (runAffinityOps (TokenAffinityState.new TOKEN_AFFINITY_TTL_SECS)
        (fillOps (TOKEN_AFFINITY_MAX_ENTRIES + 1))).mappings.length := by
  obtain ⟨hmap, httl⟩ := fill_state TOKEN_AFFINITY_MAX_ENTRIES (le_refl _)
  have hsplit : fillOps (TOKEN_AFFINITY_MAX_ENTRIES + 1) =
      fillOps TOKEN_AFFINITY_MAX_ENTRIES ++
        [AffinityOp.record (affinityTok TOKEN_AFFINITY_MAX_ENTRIES) "K" 0] := by
    rw [fillOps, fillOps, List.range_succ, List.map_append]
    rfl
  have hlen : (runAffinityOps (TokenAffinityState.new TOKEN_AFFINITY_TTL_SECS)
      (fillOps TOKEN_AFFINITY_MAX_ENTRIES)).mappings.length =
      TOKEN_AFFINITY_MAX_ENTRIES := by
    rw [hmap, List.length_map, List.length_range]
  rw [hsplit, runAffinityOps_append_one]
  simp only [applyAffinityOp]
  rw [record_mappings]
  rw [if_pos (by rw [hlen])]
  have hprune : ((runAffinityOps (TokenAffinityState.new TOKEN_AFFINITY_TTL_SECS)
      (fillOps TOKEN_AFFINITY_MAX_ENTRIES)).prune 0).mappings =
      (runAffinityOps (TokenAffinityState.new TOKEN_AFFINITY_TTL_SECS)
        (fillOps TOKEN_AFFINITY_MAX_ENTRIES)).mappings := by
    have hret : (runAffinityOps (TokenAffinityState.new TOKEN_AFFINITY_TTL_SECS)
        (fillOps TOKEN_AFFINITY_MAX_ENTRIES)).mappings.filter
          (fun e => e.2.expires_at > 0) =
        (runAffinityOps (TokenAffinityState.new TOKEN_AFFINITY_TTL_SECS)
          (fillOps TOKEN_AFFINITY_MAX_ENTRIES)).mappings := by
      rw [List.filter_eq_self]
      intro e he
      rw [hmap] at he
      obtain ⟨i, _, rfl⟩ := List.mem_map.mp he
      simp [fillEntry, TOKEN_AFFINITY_TTL_SECS]
    simp only [TokenAffinityState.prune, hret]
    rw [if_pos (by rw [hlen])]
  rw [hprune, hmap, affInsert, affRemove_eq_self
    (fillEntry_fresh TOKEN_AFFINITY_MAX_ENTRIES)]
  rw [List.length_append, List.length_map, List.length_range, List.length_singleton]
  omega

/-! ### API keys and the scheduler (lib.rs 2410-2459, 3267-3327, 3395-3424)

The `api_keys` table is a list of rows; SQL `UPDATE ... WHERE` statements are
maps that rewrite the rows satisfying the predicate.  `ORDER BY ... LIMIT 1`
is modelled by `selectMinBy`, which returns a row of minimal sort key.
SQLite sorts `NULL` first in `ASC` order, hence `WithBot` for
`last_used_at`; the exhausted fallback's explicit `CASE WHEN ... IS NULL
THEN 1 ELSE 0 END` puts `NULL` last, hence `WithTop`. -/

inductive KeyStatus where
  | active
  | exhausted
  | disabled
deriving DecidableEq, Repr

structure ApiKey where
  id : String
  api_key : String
  status : KeyStatus
  status_changed_at : Option Int
  last_used_at : Option Int
  deleted_at : Option Int
deriving DecidableEq, Repr

/-- `status_changed_at IS NOT NULL AND status_changed_at < ?` (lib.rs
3278-3279). -/
def scaPredates (sca : Option Int) (month_start : Int) : Bool :=
  match sca with
  | some t => t < month_start
  | none => false

/-- The per-row effect of the `reset_monthly` UPDATE (lib.rs 3273-3287). -/
def resetMonthlyKey (month_start now_ts : Int) (k : ApiKey) : ApiKey :=
  if k.status = KeyStatus.exhausted ∧ scaPredates k.status_changed_at month_start then
    { k with status := KeyStatus.active, status_changed_at := some now_ts }
  else k

/-- `KeyStore::reset_monthly` (lib.rs 3267-3290). -/
def reset_monthly (month_start now_ts : Int) (ks : List ApiKey) : List ApiKey :=
  ks.map (resetMonthlyKey month_start now_ts)

/-- `KeyStore::touch_key` (lib.rs 3414-3424). -/
def touch_key (key : String) (timestamp : Int) (ks : List ApiKey) : List ApiKey :=
  ks.map (fun k =>
    if k.api_key = key then { k with last_used_at := some timestamp } else k)

/-- `WHERE status = 'active' AND deleted_at IS NULL` (lib.rs 2419). -/
def activeCandidates (ks : List ApiKey) : List ApiKey :=
  ks.filter (fun k => decide (k.status = KeyStatus.active ∧ k.deleted_at = none))

/-- `WHERE status = 'exhausted' AND deleted_at IS NULL` (lib.rs 2439). -/
def exhaustedCandidates (ks : List ApiKey) : List ApiKey :=
  ks.filter (fun k => decide (k.status = KeyStatus.exhausted ∧ k.deleted_at = none))

def optBot (x : Option Int) : WithBot Int := x

def optTop (x : Option Int) : WithTop Int := x

/-- Sort key of `ORDER BY last_used_at ASC, id ASC` (lib.rs 2420); SQLite
puts NULL first, i.e. `⊥`. -/
def activeSortKey (k : ApiKey) : Lex (WithBot Int × String) :=
  toLex (optBot k.last_used_at, k.id)

/-- Sort key of `ORDER BY (CASE WHEN status_changed_at IS NULL THEN 1 ELSE 0
END) ASC, status_changed_at ASC, id ASC` (lib.rs 2440-2443); NULL last,
i.e. `⊤`. -/
def exhaustedSortKey (k : ApiKey) : Lex (WithTop Int × String) :=
  toLex (optTop k.status_changed_at, k.id)

def selectMinAux {β : Type} [LinearOrder β] (sk : ApiKey → β) (acc : ApiKey) :
    List ApiKey → ApiKey
  | [] => acc
  | k :: rest => selectMinAux sk (if sk k < sk acc then k else acc) rest

/-- `ORDER BY <sort key> ... LIMIT 1`. -/
def selectMinBy {β : Type} [LinearOrder β] (sk : ApiKey → β) :
    List ApiKey → Option ApiKey
  | [] => none
  | k :: rest => some (selectMinAux sk k rest)

structure ApiKeyLease where
  id : String
  secret : String
deriving DecidableEq, Repr

inductive ProxyErrorKind where
  | NoAvailableKeys
  | Http
deriving DecidableEq, Repr

/-- `KeyStore::acquire_key` (lib.rs 2410-2459). -/
def acquire_key (month_start now_ts : Int) (ks : List ApiKey) :
    Except ProxyErrorKind (ApiKeyLease × List ApiKey) :=
  let rs := reset_monthly month_start now_ts ks
  match selectMinBy activeSortKey (activeCandidates rs) with
  | some k => Except.ok (⟨k.id, k.api_key⟩, touch_key k.api_key now_ts rs)
  | none =>
    match selectMinBy exhaustedSortKey (exhaustedCandidates rs) with
    | some k => Except.ok (⟨k.id, k.api_key⟩, touch_key k.api_key now_ts rs)
    | none => Except.error ProxyErrorKind.NoAvailableKeys

lemma selectMinAux_mem {β : Type} [LinearOrder β] (sk : ApiKey → β) :
    ∀ (l : List ApiKey) (acc : ApiKey), selectMinAux sk acc l ∈ acc :: l := by
  intro l
  induction l with
  | nil => intro acc; simp [selectMinAux]
  | cons k rest ih =>
    intro acc
    rw [selectMinAux]
    rcases List.mem_cons.mp (ih (if sk k < sk acc then k else acc)) with heq | hmem
    · rw [heq]
      split
      · exact List.mem_cons_of_mem _ (List.mem_cons_self _ _)
      · exact List.mem_cons_self _ _
    · exact List.mem_cons_of_mem _ (List.mem_cons_of_mem _ hmem)

lemma selectMinAux_le {β : Type} [LinearOrder β] (sk : ApiKey → β) :
    ∀ (l : List ApiKey) (acc : ApiKey), ∀ x ∈ acc :: l,
      sk (selectMinAux sk acc l) ≤ sk x := by
  intro l
  induction l with
  | nil =>
    intro acc x hx
    rw [List.mem_singleton] at hx
    rw [hx, selectMinAux]
  | cons k rest ih =>
    intro acc x hx
    rw [selectMinAux]
    set acc2 := if sk k < sk acc then k else acc with hacc2
    have hacc : sk acc2 ≤ sk acc := by
      rw [hacc2]
      split
      · rename_i hlt
        exact le_of_lt hlt
      · exact le_refl _
    have hk : sk acc2 ≤ sk k := by
      rw [hacc2]
      split
      · exact le_refl _
      · rename_i hlt
        exact le_of_not_lt hlt
    have hself : sk (selectMinAux sk acc2 rest) ≤ sk acc2 :=
      ih acc2 acc2 (List.mem_cons_self _ _)
    rcases List.mem_cons.mp hx with rfl | hx2
    · exact hself.trans hacc
    · rcases List.mem_cons.mp hx2 with rfl | hx3
      · exact hself.trans hk
      · exact ih acc2 x (List.mem_cons_of_mem _ hx3)

lemma selectMinBy_none_iff {β : Type} [LinearOrder β] (sk : ApiKey → β)
    (l : List ApiKey) : selectMinBy sk l = none ↔ l = [] := by
  cases l with
  | nil => simp [selectMinBy]
  | cons k rest => simp [selectMinBy]

lemma selectMinBy_some {β : Type} [LinearOrder β] (sk : ApiKey → β)
    {l : List ApiKey} {m : ApiKey} (h : selectMinBy sk l = some m) :
    m ∈ l ∧ ∀ x ∈ l, sk m ≤ sk x := by
  cases l with
  | nil => simp [selectMinBy] at h
  | cons k rest =>
    rw [selectMinBy] at h
    have hm := Option.some.inj h
    constructor
    · rw [← hm]
      exact selectMinAux_mem sk rest k
    · intro x hx
      rw [← hm]
      exact selectMinAux_le sk rest k x hx

lemma touch_key_mem {key : String} {ts : Int} {ks : List ApiKey} {k2 : ApiKey}
    (h : k2 ∈ touch_key key ts ks) (hk : k2.api_key = key) :
    k2.last_used_at = some ts := by
  rw [touch_key] at h
  obtain ⟨k0, _, rfl⟩ := List.mem_map.mp h
  by_cases hc : k0.api_key = key
  · rw [if_pos hc]
  · rw [if_neg hc] at hk ⊢
    exact absurd hk hc

lemma activeCandidates_mem {ks : List ApiKey} {k : ApiKey}
    (h : k ∈ activeCandidates ks) :
    k ∈ ks ∧ k.status = KeyStatus.active ∧ k.deleted_at = none := by
  rw [activeCandidates] at h
  have h2 := List.mem_filter.mp h
  exact ⟨h2.1, of_decide_eq_true h2.2⟩

lemma exhaustedCandidates_mem {ks : List ApiKey} {k : ApiKey}
    (h : k ∈ exhaustedCandidates ks) :
    k ∈ ks ∧ k.status = KeyStatus.exhausted ∧ k.deleted_at = none := by
  rw [exhaustedCandidates] at h
  have h2 := List.mem_filter.mp h
  exact ⟨h2.1, of_decide_eq_true h2.2⟩

/-- **C1.** `acquire_key` first runs the monthly reset sweep, reactivating
exactly the exhausted keys whose `status_changed_at` predates the start of the
current month; then it returns the non-deleted active key with the smallest
`last_used_at` (NULL first, as SQLite sorts), ties broken by `id` ascending;
if no active key exists it returns the non-deleted exhausted key with the
smallest `status_changed_at` (NULL last, per the explicit `CASE`), ties broken
by `id`; the picked key's `last_used_at` is set to `now`; a returned key is
never disabled or soft-deleted; and if neither an active nor an exhausted key
exists the call fails with `NoAvailableKeys`. -/
theorem acquire_key_spec (month_start now_ts : Int) (ks : List ApiKey) :
    (∀ i : Nat, ∀ k : ApiKey, ks[i]? = some k →
      ((k.status = KeyStatus.exhausted ∧
          scaPredates k.status_changed_at month_start = true →
        (reset_monthly month_start now_ts ks)[i]? =
          some { k with status := KeyStatus.active,
                        status_changed_at := some now_ts }) ∧
       (¬ (k.status = KeyStatus.exhausted ∧
            scaPredates k.status_changed_at month_start = true) →
        (reset_monthly month_start now_ts ks)[i]? = some k))) ∧
    (∀ (lease : ApiKeyLease) (ks2 : List ApiKey),
      acquire_key month_start now_ts ks = Except.ok (lease, ks2) →
      (ks2 = touch_key lease.secret now_ts (reset_monthly month_start now_ts ks) ∧
        ∀ k2 ∈ ks2, k2.api_key = lease.secret → k2.last_used_at = some now_ts) ∧
      ((∃ k ∈ activeCandidates (reset_monthly month_start now_ts ks),
          lease = ⟨k.id, k.api_key⟩ ∧
          ∀ k2 ∈ activeCandidates (reset_monthly month_start now_ts ks),
            optBot k.last_used_at < optBot k2.last_used_at ∨
              (optBot k.last_used_at = optBot k2.last_used_at ∧ k.id ≤ k2.id)) ∨
       (activeCandidates (reset_monthly month_start now_ts ks) = [] ∧
        ∃ k ∈ exhaustedCandidates (reset_monthly month_start now_ts ks),
          lease = ⟨k.id, k.api_key⟩ ∧
          ∀ k2 ∈ exhaustedCandidates (reset_monthly month_start now_ts ks),
            optTop k.status_changed_at < optTop k2.status_changed_at ∨
              (optTop k.status_changed_at = optTop k2.status_changed_at ∧
                k.id ≤ k2.id))) ∧
      (∃ k ∈ reset_monthly month_start now_ts ks, lease = ⟨k.id, k.api_key⟩ ∧
        k.deleted_at = none ∧ k.status ≠ KeyStatus.disabled)) ∧
    (acquire_key month_start now_ts ks = Except.error ProxyErrorKind.NoAvailableKeys ↔
      activeCandidates (reset_monthly month_start now_ts ks) = [] ∧
      exhaustedCandidates (reset_monthly month_start now_ts ks) = []) := by
  refine ⟨?_, ?_, ?_⟩
  · intro i k hik
    have hrs : (reset_monthly month_start now_ts ks)[i]? =
        some (resetMonthlyKey month_start now_ts k) := by
      simp [reset_monthly, hik]
    constructor
    · intro hcond
      rw [hrs, resetMonthlyKey, if_pos hcond]
    · intro hcond
      rw [hrs, resetMonthlyKey, if_neg hcond]
  · intro lease ks2 hok
    simp only [acquire_key] at hok
    cases hsel : selectMinBy activeSortKey
        (activeCandidates (reset_monthly month_start now_ts ks)) with
    | some k =>
      rw [hsel] at hok
      simp only [Except.ok.injEq, Prod.mk.injEq] at hok
      obtain ⟨hlease, hks2⟩ := hok
      obtain ⟨hmem, hmin⟩ := selectMinBy_some activeSortKey hsel
      have hsecret : lease.secret = k.api_key := by rw [← hlease]
      refine ⟨⟨?_, ?_⟩, ?_, ?_⟩
      · rw [← hks2, hsecret]
      · intro k2 hk2 hkey
        rw [← hks2] at hk2
        exact touch_key_mem hk2 (hsecret ▸ hkey)
      · left
        refine ⟨k, hmem, hlease.symm, ?_⟩
        intro k2 hk2
        have := hmin k2 hk2
        rw [activeSortKey, activeSortKey] at this
        simpa using (Prod.Lex.le_iff _ _).mp this
      · obtain ⟨hmemks, hst, hdel⟩ := activeCandidates_mem hmem
        exact ⟨k, hmemks, hlease.symm, hdel, by rw [hst]; simp⟩
    | none =>
      rw [hsel] at hok
      cases hsel2 : selectMinBy exhaustedSortKey
          (exhaustedCandidates (reset_monthly month_start now_ts ks)) with
      | some k =>
        rw [hsel2] at hok
        simp only [Except.ok.injEq, Prod.mk.injEq] at hok
        obtain ⟨hlease, hks2⟩ := hok
        obtain ⟨hmem, hmin⟩ := selectMinBy_some exhaustedSortKey hsel2
        have hsecret : lease.secret = k.api_key := by rw [← hlease]
        refine ⟨⟨?_, ?_⟩, ?_, ?_⟩
        · rw [← hks2, hsecret]
        · intro k2 hk2 hkey
          rw [← hks2] at hk2
          exact touch_key_mem hk2 (hsecret ▸ hkey)
        · right
          refine ⟨(selectMinBy_none_iff _ _).mp hsel, k, hmem, hlease.symm, ?_⟩
          intro k2 hk2
          have := hmin k2 hk2
          rw [exhaustedSortKey, exhaustedSortKey] at this
          simpa using (Prod.Lex.le_iff _ _).mp this
        · obtain ⟨hmemks, hst, hdel⟩ := exhaustedCandidates_mem hmem
          exact ⟨k, hmemks, hlease.symm, hdel, by rw [hst]; simp⟩
      | none =>
        rw [hsel2] at hok
        simp at hok
  · constructor
    · intro herr
      simp only [acquire_key] at herr
      cases hsel : selectMinBy activeSortKey
          (activeCandidates (reset_monthly month_start now_ts ks)) with
      | some k => rw [hsel] at herr; simp at herr
      | none =>
        rw [hsel] at herr
        cases hsel2 : selectMinBy exhaustedSortKey
            (exhaustedCandidates (reset_monthly month_start now_ts ks)) with
        | some k => rw [hsel2] at herr; simp at herr
        | none =>
          exact ⟨(selectMinBy_none_iff _ _).mp hsel,
            (selectMinBy_none_iff _ _).mp hsel2⟩
    · intro ⟨h1, h2⟩
      simp [acquire_key, h1, h2, selectMinBy]

/-- Witness for C1 on the empty key table. -/
theorem acquire_key_spec_witness :
    acquire_key 0 0 [] = Except.error ProxyErrorKind.NoAvailableKeys :=
  (acquire_key_spec 0 0 []).2.2.mpr ⟨rfl, rfl⟩

/-- `KeyStore::mark_quota_exhausted` (lib.rs 3292-3309): guarded by
`WHERE api_key = ? AND status <> 'disabled' AND deleted_at IS NULL`. -/
def mark_quota_exhausted (key : String) (now : Int) (ks : List ApiKey) :
    List ApiKey :=
  ks.map (fun k =>
    if k.api_key = key ∧ k.status ≠ KeyStatus.disabled ∧ k.deleted_at = none then
      { k with status := KeyStatus.exhausted, status_changed_at := some now,
               last_used_at := some now }
    else k)

/-- `KeyStore::restore_active_status` (lib.rs 3311-3327): guarded by
`WHERE api_key = ? AND status = 'exhausted' AND deleted_at IS NULL`. -/
def restore_active_status (key : String) (now : Int) (ks : List ApiKey) :
    List ApiKey :=
  ks.map (fun k =>
    if k.api_key = key ∧ k.status = KeyStatus.exhausted ∧ k.deleted_at = none then
      { k with status := KeyStatus.active, status_changed_at := some now }
    else k)

/-- `KeyStore::enable_key_by_id` (lib.rs 3395-3412): guarded by
`WHERE id = ? AND status IN ('disabled', 'exhausted') AND deleted_at IS NULL`. -/
def enable_key_by_id (key_id : String) (now : Int) (ks : List ApiKey) :
    List ApiKey :=
  ks.map (fun k =>
    if k.id = key_id ∧ (k.status = KeyStatus.disabled ∨ k.status = KeyStatus.exhausted) ∧
        k.deleted_at = none then
      { k with status := KeyStatus.active, status_changed_at := some now }
    else k)

/-- The key-table mutations a proxied request can perform: the monthly sweep
and `touch_key` during acquisition, and `mark_quota_exhausted` /
`restore_active_status` after the upstream call (lib.rs 452-456). -/
inductive RequestKeyOp where
  | mark (key : String) (now : Int)
  | restore (key : String) (now : Int)
  | touch (key : String) (ts : Int)
  | sweep (month_start now : Int)

def applyRequestKeyOp (ks : List ApiKey) : RequestKeyOp → List ApiKey
  | RequestKeyOp.mark key now => mark_quota_exhausted key now ks
  | RequestKeyOp.restore key now => restore_active_status key now ks
  | RequestKeyOp.touch key ts => touch_key key ts ks
  | RequestKeyOp.sweep ms now => reset_monthly ms now ks

lemma applyRequestKeyOp_disabled (op : RequestKeyOp) (ks : List ApiKey)
    (i : Nat) (k : ApiKey) (hik : ks[i]? = some k)
    (hd : k.status = KeyStatus.disabled) :
    ∃ k2, (applyRequestKeyOp ks op)[i]? = some k2 ∧
      k2.status = KeyStatus.disabled := by
  cases op with
  | mark key now =>
    refine ⟨if k.api_key = key ∧ k.status ≠ KeyStatus.disabled ∧ k.deleted_at = none then
        { k with status := KeyStatus.exhausted, status_changed_at := some now,
                 last_used_at := some now } else k,
      by simp [applyRequestKeyOp, mark_quota_exhausted, hik], ?_⟩
    rw [if_neg (by simp [hd])]
    exact hd
  | restore key now =>
    refine ⟨if k.api_key = key ∧ k.status = KeyStatus.exhausted ∧ k.deleted_at = none then
        { k with status := KeyStatus.active, status_changed_at := some now } else k,
      by simp [applyRequestKeyOp, restore_active_status, hik], ?_⟩
    rw [if_neg (by simp [hd])]
    exact hd
  | touch key ts =>
    refine ⟨if k.api_key = key then { k with last_used_at := some ts } else k,
      by simp [applyRequestKeyOp, touch_key, hik], ?_⟩
    split
    · exact hd
    · exact hd
  | sweep ms now =>
    refine ⟨resetMonthlyKey ms now k,
      by simp [applyRequestKeyOp, reset_monthly, hik], ?_⟩
    rw [resetMonthlyKey, if_neg (by simp [hd])]
    exact hd

/-- **C10.** `mark_quota_exhausted` leaves every disabled or soft-deleted key
completely unchanged; `restore_active_status` changes a key only when it
matches the secret, is currently exhausted and is not deleted; consequently no
sequence of request-driven key operations (sweep, touch, mark, restore) can
move a key out of the disabled state; and an explicit admin
`enable_key_by_id` does re-activate a disabled, non-deleted key. -/
theorem key_status_guard_spec (ks : List ApiKey) (key key_id : String) (now : Int) :
    (∀ i : Nat, ∀ k : ApiKey, ks[i]? = some k →
      k.status = KeyStatus.disabled ∨ k.deleted_at ≠ none →
      (mark_quota_exhausted key now ks)[i]? = some k) ∧
    (∀ i : Nat, ∀ k : ApiKey, ks[i]? = some k →
      ¬ (k.api_key = key ∧ k.status = KeyStatus.exhausted ∧ k.deleted_at = none) →
      (restore_active_status key now ks)[i]? = some k) ∧
    (∀ ops : List RequestKeyOp, ∀ i : Nat, ∀ k : ApiKey, ks[i]? = some k →
      k.status = KeyStatus.disabled →
      ∃ k2, (ops.foldl applyRequestKeyOp ks)[i]? = some k2 ∧
        k2.status = KeyStatus.disabled) ∧
    (∀ i : Nat, ∀ k : ApiKey, ks[i]? = some k → k.id = key_id →
      k.status = KeyStatus.disabled → k.deleted_at = none →
      (enable_key_by_id key_id now ks)[i]? =
        some { k with status := KeyStatus.active,
                      status_changed_at := some now }) := by
  refine ⟨?_, ?_, ?_, ?_⟩
  · intro i k hik hguard
    have : (mark_quota_exhausted key now ks)[i]? = some (
        if k.api_key = key ∧ k.status ≠ KeyStatus.disabled ∧ k.deleted_at = none then
          { k with status := KeyStatus.exhausted, status_changed_at := some now,
                   last_used_at := some now }
        else k) := by
      simp [mark_quota_exhausted, hik]
    rw [this, if_neg]
    rcases hguard with hd | hdel
    · intro ⟨_, hns, _⟩
      exact hns hd
    · intro ⟨_, _, hnone⟩
      exact hdel hnone
  · intro i k hik hguard
    have : (restore_active_status key now ks)[i]? = some (
        if k.api_key = key ∧ k.status = KeyStatus.exhausted ∧ k.deleted_at = none then
          { k with status := KeyStatus.active, status_changed_at := some now }
        else k) := by
      simp [restore_active_status, hik]
    rw [this, if_neg hguard]
  · intro ops
    induction ops generalizing ks with
    | nil =>
      intro i k hik hd
      exact ⟨k, by simpa using hik, hd⟩
    | cons op rest ih =>
      intro i k hik hd
      rw [List.foldl_cons]
      obtain ⟨k2, hk2, hd2⟩ := applyRequestKeyOp_disabled op ks i k hik hd
      exact ih (applyRequestKeyOp ks op) i k2 hk2 hd2
  · intro i k hik hid hd hdel
    have : (enable_key_by_id key_id now ks)[i]? = some (
        if k.id = key_id ∧ (k.status = KeyStatus.disabled ∨ k.status = KeyStatus.exhausted) ∧
            k.deleted_at = none then
          { k with status := KeyStatus.active, status_changed_at := some now }
        else k) := by
      simp [enable_key_by_id, hik]
    rw [this, if_pos ⟨hid, Or.inl hd, hdel⟩]

/-- Witness for C10: a disabled key survives a mark/restore/touch/sweep
sequence untouched in status. -/
theorem key_status_guard_spec_witness :
    ∃ k2, ([RequestKeyOp.mark "s" 5, RequestKeyOp.restore "s" 6,
        RequestKeyOp.touch "s" 7, RequestKeyOp.sweep 100 8].foldl applyRequestKeyOp
        [⟨"a", "s", KeyStatus.disabled, some 1, none, none⟩])[0]? = some k2 ∧
      k2.status = KeyStatus.disabled :=
  (key_status_guard_spec [⟨"a", "s", KeyStatus.disabled, some 1, none, none⟩]
    "s" "a" 5).2.2.1
    [RequestKeyOp.mark "s" 5, RequestKeyOp.restore "s" 6,
      RequestKeyOp.touch "s" 7, RequestKeyOp.sweep 100 8]
    0 ⟨"a", "s", KeyStatus.disabled, some 1, none, none⟩ rfl rfl

/-! ### Request pipeline tail: logging and key-status update (lib.rs 417-491) -/

structure AttemptLogRec where
  key_id : String
  auth_token_id : Option String
  status_code : Option Nat
  tavily_status_code : Option Int
  error : Option String
  outcome : ResultStatus
deriving DecidableEq, Repr

structure ProxyState where
  keys : List ApiKey
  logs : List AttemptLogRec
deriving Repr

/-- The transport outcome of `builder.send().await` (lib.rs 417): either an
HTTP response (status + body bytes) was obtained, or the transport failed
with no response at all. -/
inductive TransportResult where
  | ok (status : Nat) (body : BodyRep)
  | err (msg : String)

/-- The tail of `TavilyProxy::proxy_request` after the upstream call
(lib.rs 419-491): classify, persist the attempt log, update the key status,
and produce the caller-visible result. -/
def proxyFinish (parse : String → Option Json) (lease : ApiKeyLease)
    (auth_token_id : Option String) (now : Int) (tr : TransportResult)
    (st : ProxyState) : Except ProxyErrorKind (Nat × BodyRep) × ProxyState :=
  match tr with
  | TransportResult.ok status body =>
    let outcome := analyze_attempt parse status body
    let row : AttemptLogRec :=
      { key_id := lease.id, auth_token_id := auth_token_id,
        status_code := some status, tavily_status_code := outcome.tavily_status_code,
        error := none, outcome := outcome.status }
    let keys :=
      if status = 432 ∨ outcome.mark_exhausted = true then
        mark_quota_exhausted lease.secret now st.keys
      else
        restore_active_status lease.secret now st.keys
    (Except.ok (status, body), { keys := keys, logs := st.logs ++ [row] })
  | TransportResult.err msg =>
    let row : AttemptLogRec :=
      { key_id := lease.id, auth_token_id := auth_token_id,
        status_code := none, tavily_status_code := none,
        error := some msg, outcome := ResultStatus.error }
    (Except.error ProxyErrorKind.Http, { keys := st.keys, logs := st.logs ++ [row] })

/-- **C8.** When the upstream transport call fails (no HTTP response),
`proxy_request` persists an attempt log with `result_status = error`, no HTTP
status code and no `tavily_status_code`, propagates the failure as an `Http`
error, and leaves the key table — in particular every key's status —
completely unchanged, so a transport error never transitions a key to
exhausted. -/
theorem proxy_transport_error_spec (parse : String → Option Json)
    (lease : ApiKeyLease) (auth_token_id : Option String) (now : Int)
    (msg : String) (st : ProxyState) :
    (proxyFinish parse lease auth_token_id now (TransportResult.err msg) st).1 =
      Except.error ProxyErrorKind.Http ∧
    (proxyFinish parse lease auth_token_id now (TransportResult.err msg) st).2.keys =
      st.keys ∧
    ((proxyFinish parse lease auth_token_id now (TransportResult.err msg) st).2.logs =
      st.logs ++
        [{ key_id := lease.id, auth_token_id := auth_token_id,
           status_code := none, tavily_status_code := none,
           error := some msg, outcome := ResultStatus.error }]) ∧
    (∀ i : Nat, ∀ k : ApiKey, st.keys[i]? = some k →
      ((proxyFinish parse lease auth_token_id now
        (TransportResult.err msg) st).2.keys)[i]? = some k) := by
  refine ⟨rfl, rfl, rfl, ?_⟩
  intro i k hik
  exact hik

/-! ### Access-token validation (lib.rs 2498-2531) -/

structure AuthToken where
  id : String
  secret : String
  enabled : Int
  total_requests : Int
  last_used_at : Option Int
  deleted_at : Option Int
deriving DecidableEq, Repr

/-- Rust's `str::strip_prefix` over the character lists of the strings. -/
def stripPrefixChars : List Char → List Char → Option (List Char)
  | [], cs => some cs
  | _ :: _, [] => none
  | p :: ps, c :: cs => if c = p then stripPrefixChars ps cs else none

/-- Rust's `splitn(2, '-')`: the segment before the first separator, and the
remainder after it (`none` when the separator does not occur, in which case
`parts.len() == 1`). -/
def splitn2 (sep : Char) : List Char → List Char × Option (List Char)
  | [] => ([], none)
  | c :: cs =>
    if c = sep then ([], some cs)
    else
      let r := splitn2 sep cs
      (c :: r.1, r.2)

inductive DbResult (α : Type) where
  | ok (a : α)
  | dbError
deriving DecidableEq, Repr

/-- `KeyStore::validate_access_token` (lib.rs 2498-2531).  The SQL
`SELECT COUNT(1) as cnt, enabled ... LIMIT 1` is an aggregate query: it
always returns exactly one row; when no row matches, `cnt` is 0 and the bare
`enabled` column is NULL, which fails to decode into a non-optional `i64`
and surfaces as a database error.  The function runs no UPDATE or INSERT, so
the token table is returned unchanged. -/
def validateLookup (tokens : List AuthToken) (idc secretc : List Char) :
    DbResult Bool :=
  let matching := tokens.filter (fun t =>
    decide (t.id = String.mk idc ∧ t.secret = String.mk secretc ∧
      t.deleted_at = none))
  match matching.head? with
  | none => DbResult.dbError
  | some t => DbResult.ok (decide (matching.length > 0 ∧ t.enabled = 1))

def validate_access_token (tokens : List AuthToken) (token : String) :
    DbResult Bool × List AuthToken :=
  let res :=
    match stripPrefixChars "th-".data token.data with
    | none => DbResult.ok false
    | some rest =>
      match splitn2 '-' rest with
      | (_, none) => DbResult.ok false
      | (idc, some secretc) =>
        if ¬ (idc.length = 4 ∧ (secretc.length = 12 ∨ secretc.length = 24)) then
          DbResult.ok false
        else validateLookup tokens idc secretc
  (res, tokens)

lemma validate_access_token_state (tokens : List AuthToken) (token : String) :
    (validate_access_token tokens token).2 = tokens := rfl

lemma validateLookup_ok_true_iff (tokens : List AuthToken) (idc secretc : List Char)
    (hnd : (tokens.map AuthToken.id).Nodup) :
    validateLookup tokens idc secretc = DbResult.ok true ↔
      ∃ t ∈ tokens, t.id = String.mk idc ∧ t.secret = String.mk secretc ∧
        t.deleted_at = none ∧ t.enabled = 1 := by
  simp only [validateLookup]
  cases hh : (tokens.filter (fun t =>
      decide (t.id = String.mk idc ∧ t.secret = String.mk secretc ∧
        t.deleted_at = none))).head? with
  | none =>
    have hempty := List.head?_eq_none_iff.mp hh
    simp only [hh]
    constructor
    · intro h
      exact absurd h (by simp)
    · intro ⟨t, hmem, hid, hsec, hdel, _⟩
      have : t ∈ (tokens.filter (fun t =>
          decide (t.id = String.mk idc ∧ t.secret = String.mk secretc ∧
            t.deleted_at = none))) :=
        List.mem_filter.mpr ⟨hmem, decide_eq_true ⟨hid, hsec, hdel⟩⟩
      rw [hempty] at this
      exact absurd this (List.not_mem_nil t)
  | some t0 =>
    have ht0mem : t0 ∈ (tokens.filter (fun t =>
        decide (t.id = String.mk idc ∧ t.secret = String.mk secretc ∧
          t.deleted_at = none))) := List.mem_of_mem_head? hh
    have ht0 := List.mem_filter.mp ht0mem
    obtain ⟨ht0id, ht0sec, ht0del⟩ := of_decide_eq_true ht0.2
    have hpos : (tokens.filter (fun t =>
        decide (t.id = String.mk idc ∧ t.secret = String.mk secretc ∧
          t.deleted_at = none))).length > 0 :=
      List.length_pos_of_mem ht0mem
    simp only [hh, DbResult.ok.injEq]
    rw [decide_eq_true_iff]
    constructor
    · intro ⟨_, hen⟩
      exact ⟨t0, ht0.1, ht0id, ht0sec, ht0del, hen⟩
    · intro ⟨t, hmem, hid, hsec, hdel, hen⟩
      refine ⟨hpos, ?_⟩
      have heq : t = t0 :=
        List.inj_on_of_nodup_map hnd hmem ht0.1 (by rw [hid, ht0id])
      rw [← heq]
      exact hen

/-- **C9.** `validate_access_token` mutates nothing: the token table (hence
`total_requests` and `last_used_at` of every row, and any other state) is
identical before and after any number of calls; and it returns `Ok true`
exactly when the string parses as `th-<id>-<secret>` with a 4-character id
and a 12- or 24-character secret, and a non-deleted, enabled token row with
that id and secret exists.  (On a well-formed token with no matching
non-deleted row the aggregate row decodes `enabled` as NULL and the call
surfaces a database error; it still mutates nothing.) -/
theorem validate_access_token_spec (tokens : List AuthToken) (token : String)
    (hnd : (tokens.map AuthToken.id).Nodup) :
    (validate_access_token tokens token).2 = tokens ∧
    (∀ n : Nat, (fun ts => (validate_access_token ts token).2)^[n] tokens = tokens) ∧
    ((validate_access_token tokens token).1 = DbResult.ok true ↔
      ∃ rest idc secretc, stripPrefixChars "th-".data token.data = some rest ∧
        splitn2 '-' rest = (idc, some secretc) ∧ idc.length = 4 ∧
        (secretc.length = 12 ∨ secretc.length = 24) ∧
        ∃ t ∈ tokens, t.id = String.mk idc ∧ t.secret = String.mk secretc ∧
          t.deleted_at = none ∧ t.enabled = 1) := by
  refine ⟨rfl, ?_, ?_⟩
  · intro n
    have hid : (fun ts : List AuthToken => (validate_access_token ts token).2) = id := rfl
    rw [hid, Function.iterate_id, id]
  · simp only [validate_access_token]
    cases hsp : stripPrefixChars "th-".data token.data with
    | none => simp
    | some rest =>
      simp only [Option.some.injEq]
      rcases hsp2 : splitn2 '-' rest with ⟨idc, orem⟩
      cases orem with
      | none =>
        constructor
        · intro h
          exact absurd h (by simp)
        · intro ⟨rest2, idc2, secretc2, hr, hs2, _⟩
          obtain rfl := hr
          rw [hsp2] at hs2
          exact absurd (Prod.mk.injEq _ _ _ _ ▸ hs2).2 (by simp)
      | some secretc =>
        by_cases hlen : idc.length = 4 ∧ (secretc.length = 12 ∨ secretc.length = 24)
        · simp only [if_neg (not_not_intro hlen)]
          rw [validateLookup_ok_true_iff tokens idc secretc hnd]
          constructor
          · intro ⟨t, hmem, hprops⟩
            exact ⟨rest, idc, secretc, rfl, hsp2 ▸ rfl, hlen.1, hlen.2,
              t, hmem, hprops⟩
          · intro ⟨rest2, idc2, secretc2, hr, hs2, _, _, t, hmem, hprops⟩
            obtain rfl := hr
            rw [hsp2] at hs2
            obtain ⟨h1, h2⟩ := Prod.mk.injEq _ _ _ _ ▸ hs2
            obtain rfl : idc2 = idc := h1.symm
            obtain rfl : secretc2 = secretc := (Option.some.inj h2).symm
            exact ⟨t, hmem, hprops⟩
        · simp only [if_pos hlen]
          constructor
          · intro h
            exact absurd h (by simp)
          · intro ⟨rest2, idc2, secretc2, hr, hs2, hl4, hl12, _⟩
            obtain rfl := hr
            rw [hsp2] at hs2
            obtain ⟨h1, h2⟩ := Prod.mk.injEq _ _ _ _ ▸ hs2
            obtain rfl : idc2 = idc := h1.symm
            obtain rfl : secretc2 = secretc := (Option.some.inj h2).symm
            exact (hlen ⟨hl4, hl12⟩).elim

/-- Witness for C9 on a concrete single-token table. -/
theorem validate_access_token_spec_witness :
    (validate_access_token [⟨"abcd", "secretsecret", 1, 0, none, none⟩]
        "th-abcd-secretsecret").1 = DbResult.ok true ∧
    (validate_access_token [⟨"abcd", "secretsecret", 1, 0, none, none⟩]
        "th-abcd-secretsecret").2 = [⟨"abcd", "secretsecret", 1, 0, none, none⟩] :=
  ⟨(validate_access_token_spec [⟨"abcd", "secretsecret", 1, 0, none, none⟩]
      "th-abcd-secretsecret" (by decide)).2.2.mpr
    ⟨"abcd-secretsecret".data, "abcd".data, "secretsecret".data, by decide, by decide,
      by decide, by decide,
      ⟨"abcd", "secretsecret", 1, 0, none, none⟩, by decide, by decide, by decide,
      by decide, by decide⟩,
   (validate_access_token_spec [⟨"abcd", "secretsecret", 1, 0, none, none⟩]
      "th-abcd-secretsecret" (by decide)).1⟩

/-! ### Token quota accountant (lib.rs 814-938, 1419-1460, 1706-1733)

`token_usage_buckets` rows are keyed by the unique
`(token_id, bucket_start, granularity)`; `auth_token_quota` rows by the
unique `token_id`.  `chrono`'s `start_of_month` is abstracted as the
parameter `monthStartOf`; Rust's `i64 %` is truncated remainder,
`Int.tmod`. -/

def GRANULARITY_MINUTE : String := "minute"

def GRANULARITY_HOUR : String := "hour"

def BUCKET_RETENTION_SECS : Int := 2 * 24 * 3600

def CLEANUP_INTERVAL_SECS : Int := 600

structure BucketRow where
  token_id : String
  bucket_start : Int
  granularity : String
  count : Int
deriving DecidableEq, Repr

structure MonthlyRow where
  token_id : String
  month_start : Int
  month_count : Int
deriving DecidableEq, Repr

structure QuotaStore where
  buckets : List BucketRow
  monthly : List MonthlyRow
  cleanup_last_pruned : Int
deriving Repr

/-- `KeyStore::increment_usage_bucket` (lib.rs 1419-1439): UPSERT with
`count = count + 1` on conflict of the unique bucket key. -/
def increment_usage_bucket (token_id : String) (bucket_start : Int)
    (granularity : String) (rows : List BucketRow) : List BucketRow :=
  if rows.any (fun r => decide (r.token_id = token_id ∧
      r.bucket_start = bucket_start ∧ r.granularity = granularity)) then
    rows.map (fun r =>
      if r.token_id = token_id ∧ r.bucket_start = bucket_start ∧
          r.granularity = granularity then
        { r with count := r.count + 1 }
      else r)
  else
    rows ++ [{ token_id := token_id, bucket_start := bucket_start,
               granularity := granularity, count := 1 }]

/-- `KeyStore::sum_usage_buckets` (lib.rs 1441-1460):
`SELECT SUM(count) WHERE token_id = ? AND granularity = ? AND
bucket_start >= ?` (empty sum is 0). -/
def sum_usage_buckets (token_id granularity : String)
    (bucket_start_at_least : Int) (rows : List BucketRow) : Int :=
  ((rows.filter (fun r => decide (r.token_id = token_id ∧
      r.granularity = granularity ∧
      r.bucket_start ≥ bucket_start_at_least))).map (fun r => r.count)).sum

/-- `KeyStore::increment_monthly_quota` (lib.rs 1706-1733): UPSERT keyed on
`token_id`; a strictly newer `month_start` resets the count to 1, otherwise
increments; returns the new count. -/
def increment_monthly_quota (token_id : String) (current_month_start : Int)
    (rows : List MonthlyRow) : Int × List MonthlyRow :=
  match rows.find? (fun r => r.token_id == token_id) with
  | none =>
    (1, rows ++ [{ token_id := token_id, month_start := current_month_start,
                   month_count := 1 }])
  | some row =>
    let newRow :=
      if current_month_start > row.month_start then
        { row with month_start := current_month_start, month_count := 1 }
      else
        { row with month_count := row.month_count + 1 }
    (newRow.month_count,
      rows.map (fun r => if r.token_id = token_id then newRow else r))

/-- `KeyStore::delete_old_usage_buckets`:
`DELETE WHERE granularity = ? AND bucket_start < ?`. -/
def delete_old_usage_buckets (granularity : String) (threshold : Int)
    (rows : List BucketRow) : List BucketRow :=
  rows.filter (fun r => ¬ (r.granularity = granularity ∧ r.bucket_start < threshold))

/-- `TokenQuota::maybe_cleanup` (lib.rs 916-938). -/
def maybe_cleanup (now_ts : Int) (st : QuotaStore) : QuotaStore :=
  if now_ts - st.cleanup_last_pruned < CLEANUP_INTERVAL_SECS then st
  else
    let threshold := now_ts - BUCKET_RETENTION_SECS
    { st with
        cleanup_last_pruned := now_ts,
        buckets := delete_old_usage_buckets GRANULARITY_HOUR threshold
          (delete_old_usage_buckets GRANULARITY_MINUTE threshold st.buckets) }

/-- `TokenQuota::check` (lib.rs 825-868), reached through
`check_token_quota`: floor `now` to its minute and hour buckets, increment
both, sum the rolling windows, bump the monthly counter, opportunistically
GC old buckets, and build the verdict with the default limits. -/
def check_token_quota (monthStartOf : Int → Int) (token_id : String)
    (now_ts : Int) (st : QuotaStore) : TokenQuotaVerdict × QuotaStore :=
  let minute_bucket := now_ts - Int.tmod now_ts SECS_PER_MINUTE
  let hour_bucket := now_ts - Int.tmod now_ts SECS_PER_HOUR
  let buckets := increment_usage_bucket token_id minute_bucket
    GRANULARITY_MINUTE st.buckets
  let buckets := increment_usage_bucket token_id hour_bucket
    GRANULARITY_HOUR buckets
  let hour_window_start := minute_bucket - 59 * SECS_PER_MINUTE
  let day_window_start := hour_bucket - 23 * SECS_PER_HOUR
  let hourly_used := sum_usage_buckets token_id GRANULARITY_MINUTE
    hour_window_start buckets
  let daily_used := sum_usage_buckets token_id GRANULARITY_HOUR
    day_window_start buckets
  let month_start := monthStartOf now_ts
  let mres := increment_monthly_quota token_id month_start st.monthly
  let st2 := maybe_cleanup now_ts
    { buckets := buckets, monthly := mres.2,
      cleanup_last_pruned := st.cleanup_last_pruned }
  (TokenQuotaVerdict.new hourly_used TOKEN_HOURLY_LIMIT daily_used
    TOKEN_DAILY_LIMIT mres.1 TOKEN_MONTHLY_LIMIT, st2)

def runQuotaChecks (monthStartOf : Int → Int) (token_id : String)
    (times : List Int) (st : QuotaStore) : QuotaStore :=
  times.foldl (fun s u => (check_token_quota monthStartOf token_id u s).2) st

def bucketKey (r : BucketRow) : String × Int × String :=
  (r.token_id, r.bucket_start, r.granularity)

/-- Total stored count for one `(token, granularity)` pair. -/
def tokTotal (t g : String) : List BucketRow → Int
  | [] => 0
  | r :: rest =>
    (if r.token_id = t ∧ r.granularity = g then r.count else 0) + tokTotal t g rest

lemma tokTotal_append (t g : String) (l1 l2 : List BucketRow) :
    tokTotal t g (l1 ++ l2) = tokTotal t g l1 + tokTotal t g l2 := by
  induction l1 with
  | nil => simp [tokTotal]
  | cons r rest ih => rw [List.cons_append, tokTotal, tokTotal, ih]; ring

lemma map_nomatch (t : String) (bs : Int) (g : String) (l : List BucketRow)
    (h : ∀ r ∈ l, ¬ (r.token_id = t ∧ r.bucket_start = bs ∧ r.granularity = g)) :
    l.map (fun r =>
      if r.token_id = t ∧ r.bucket_start = bs ∧ r.granularity = g then
        { r with count := r.count + 1 }
      else r) = l := by
  induction l with
  | nil => rfl
  | cons r rest ih =>
    rw [List.map_cons, if_neg (h r (List.mem_cons_self r rest)),
      ih (fun r2 h2 => h r2 (List.mem_cons_of_mem r h2))]

lemma tokTotal_increment_same (t : String) (bs : Int) (g : String)
    (rows : List BucketRow) (hnd : (rows.map bucketKey).Nodup) :
    tokTotal t g (increment_usage_bucket t bs g rows) = tokTotal t g rows + 1 := by
  rw [increment_usage_bucket]
  split
  · rename_i hany
    obtain ⟨r0, hr0mem, hr0p⟩ := List.any_eq_true.mp hany
    obtain ⟨h1, h2, h3⟩ := of_decide_eq_true hr0p
    clear hany hr0p
    induction rows with
    | nil => exact absurd hr0mem (List.not_mem_nil r0)
    | cons r rest ih =>
      rw [List.map_cons, List.nodup_cons] at hnd
      rcases List.mem_cons.mp hr0mem with rfl | hmem
      · rw [List.map_cons, if_pos ⟨h1, h2, h3⟩]
        have hnom : ∀ r2 ∈ rest,
            ¬ (r2.token_id = t ∧ r2.bucket_start = bs ∧ r2.granularity = g) := by
          intro r2 h2mem hc
          apply hnd.1
          have : bucketKey r2 = bucketKey r0 := by
            rw [bucketKey, bucketKey, h1, h2, h3, hc.1, hc.2.1, hc.2.2]
          rw [← this]
          exact List.mem_map.mpr ⟨r2, h2mem, rfl⟩
        rw [map_nomatch t bs g rest hnom, tokTotal, tokTotal,
          if_pos ⟨h1, h3⟩, if_pos ⟨h1, h3⟩]
        ring
      · by_cases hr : r.token_id = t ∧ r.bucket_start = bs ∧ r.granularity = g
        · -- r also matches the full key: contradicts nodup with r0 ∈ rest
          exact absurd (List.mem_map.mpr ⟨r0, hmem, by
            rw [bucketKey, bucketKey, h1, h2, h3, hr.1, hr.2.1, hr.2.2]⟩) hnd.1
        · rw [List.map_cons, if_neg hr, tokTotal, tokTotal, ih hnd.2 hmem]
          ring
  · rw [tokTotal_append, tokTotal, tokTotal, if_pos ⟨rfl, rfl⟩]
    ring

lemma tokTotal_increment_ne (t2 g2 t : String) (bs : Int) (g : String)
    (rows : List BucketRow) (hne : ¬ (t = t2 ∧ g = g2)) :
    tokTotal t2 g2 (increment_usage_bucket t bs g rows) = tokTotal t2 g2 rows := by
  rw [increment_usage_bucket]
  split
  · rename_i hany
    clear hany
    induction rows with
    | nil => rfl
    | cons r rest ih =>
      rw [List.map_cons, tokTotal, tokTotal, ih]
      congr 1
      by_cases hr : r.token_id = t ∧ r.bucket_start = bs ∧ r.granularity = g
      · rw [if_pos hr]
        have : ¬ (r.token_id = t2 ∧ r.granularity = g2) := by
          intro hc
          exact hne ⟨hr.1 ▸ hc.1.symm ▸ rfl, hr.2.2 ▸ hc.2.symm ▸ rfl⟩
        rw [if_neg this, if_neg (by
          intro hc
          exact this ⟨hc.1, hc.2⟩)]
      · rw [if_neg hr]
  · rw [tokTotal_append, tokTotal, tokTotal]
    rw [if_neg (by
      intro hc
      exact hne ⟨hc.1.symm ▸ rfl, hc.2.symm ▸ rfl⟩)]
    ring

lemma increment_keys_nodup (t : String) (bs : Int) (g : String)
    (rows : List BucketRow) (hnd : (rows.map bucketKey).Nodup) :
    ((increment_usage_bucket t bs g rows).map bucketKey).Nodup := by
  rw [increment_usage_bucket]
  split
  · have : (rows.map (fun r =>
        if r.token_id = t ∧ r.bucket_start = bs ∧ r.granularity = g then
          { r with count := r.count + 1 }
        else r)).map bucketKey = rows.map bucketKey := by
      rw [List.map_map]
      apply List.map_congr_left
      intro r _
      by_cases hr : r.token_id = t ∧ r.bucket_start = bs ∧ r.granularity = g
      · simp [hr, bucketKey]
      · simp [hr]
    rw [this]
    exact hnd
  · rename_i hany
    rw [List.map_append, List.map_singleton]
    rw [List.nodup_append]
    refine ⟨hnd, List.nodup_singleton _, ?_⟩
    intro x hx
    obtain ⟨r, hrmem, rfl⟩ := List.mem_map.mp hx
    simp only [List.mem_singleton]
    intro hc
    rw [List.any_eq_true] at hany
    apply hany
    refine ⟨r, hrmem, decide_eq_true ?_⟩
    have h1 := congrArg Prod.fst hc
    have h2 := congrArg (fun p => p.2.1) hc
    have h3 := congrArg (fun p => p.2.2) hc
    exact ⟨h1, h2, h3⟩

lemma increment_rows_prop (P : BucketRow → Prop) (t : String) (bs : Int)
    (g : String) (rows : List BucketRow) (hP : ∀ r ∈ rows, P r)
    (hnew : P ⟨t, bs, g, 1⟩)
    (hupd : ∀ r, P r → P { r with count := r.count + 1 }) :
    ∀ r ∈ increment_usage_bucket t bs g rows, P r := by
  intro r hr
  rw [increment_usage_bucket] at hr
  split at hr
  · obtain ⟨r0, hr0, rfl⟩ := List.mem_map.mp hr
    by_cases hc : r0.token_id = t ∧ r0.bucket_start = bs ∧ r0.granularity = g
    · rw [if_pos hc]
      exact hupd r0 (hP r0 hr0)
    · rw [if_neg hc]
      exact hP r0 hr0
  · rcases List.mem_append.mp hr with hmem | hmem
    · exact hP r hmem
    · rw [List.mem_singleton] at hmem
      rw [hmem]
      exact hnew

lemma sum_usage_cons (t g : String) (W : Int) (r : BucketRow)
    (rest : List BucketRow) :
    sum_usage_buckets t g W (r :: rest) =
      (if r.token_id = t ∧ r.granularity = g ∧ r.bucket_start ≥ W then r.count
       else 0) + sum_usage_buckets t g W rest := by
  rw [sum_usage_buckets, sum_usage_buckets, List.filter_cons]
  split
  · rename_i hp
    rw [List.map_cons, List.sum_cons, if_pos (of_decide_eq_true hp)]
  · rename_i hp
    rw [if_neg (fun hc => hp (decide_eq_true hc)), zero_add]

lemma sum_eq_tokTotal (t g : String) (W : Int) (rows : List BucketRow)
    (h : ∀ r ∈ rows, r.token_id = t → r.granularity = g → W ≤ r.bucket_start) :
    sum_usage_buckets t g W rows = tokTotal t g rows := by
  induction rows with
  | nil => rfl
  | cons r rest ih =>
    rw [sum_usage_cons, tokTotal,
      ih (fun r2 h2 => h r2 (List.mem_cons_of_mem r h2))]
    congr 1
    by_cases hc : r.token_id = t ∧ r.granularity = g
    · rw [if_pos ⟨hc.1, hc.2, h r (List.mem_cons_self r rest) hc.1 hc.2⟩,
        if_pos hc]
    · rw [if_neg (fun hcc => hc ⟨hcc.1, hcc.2.1⟩), if_neg hc]

lemma tokTotal_delete_old (t g g2 : String) (th : Int) (rows : List BucketRow)
    (h : ∀ r ∈ rows, r.token_id = t → r.granularity = g → th ≤ r.bucket_start) :
    tokTotal t g (delete_old_usage_buckets g2 th rows) = tokTotal t g rows := by
  induction rows with
  | nil => rfl
  | cons r rest ih =>
    have ih2 := ih (fun r2 h2 => h r2 (List.mem_cons_of_mem r h2))
    rw [delete_old_usage_buckets, List.filter_cons]
    split
    · rw [tokTotal, tokTotal, ← delete_old_usage_buckets, ih2]
    · rename_i hp
      have hrem : r.granularity = g2 ∧ r.bucket_start < th := by
        by_contra hc
        exact hp (decide_eq_true hc)
      rw [← delete_old_usage_buckets, ih2, tokTotal]
      rw [if_neg (fun hc =>
        absurd (h r (List.mem_cons_self r rest) hc.1 hc.2) (by omega))]
      rw [zero_add]

def monthCountOf (t : String) (rows : List MonthlyRow) : Int :=
  match rows.find? (fun r => r.token_id == t) with
  | none => 0
  | some r => r.month_count

lemma find?_map_update (t : String) (rows : List MonthlyRow)
    (row newRow : MonthlyRow)
    (hf : rows.find? (fun r => r.token_id == t) = some row)
    (hnew : newRow.token_id = t) :
    (rows.map (fun r => if r.token_id = t then newRow else r)).find?
      (fun r => r.token_id == t) = some newRow := by
  induction rows with
  | nil => simp at hf
  | cons r rest ih =>
    rw [List.map_cons]
    cases hp : (r.token_id == t) with
    | true =>
      rw [if_pos (by simpa using hp)]
      rw [List.find?_cons_of_pos _ (by simpa using hnew)]
    | false =>
      rw [if_neg (by simpa using hp)]
      rw [List.find?_cons_of_neg _ (by simpa using hp)]
      rw [List.find?_cons_of_neg _ (by simpa using hp)] at hf
      exact ih hf

lemma increment_monthly_spec (t : String) (ms : Int) (rows : List MonthlyRow)
    (h0 : 0 ≤ monthCountOf t rows) :
    1 ≤ (increment_monthly_quota t ms rows).1 ∧
    (increment_monthly_quota t ms rows).1 ≤ monthCountOf t rows + 1 ∧
    monthCountOf t (increment_monthly_quota t ms rows).2 =
      (increment_monthly_quota t ms rows).1 := by
  cases hf : rows.find? (fun r => r.token_id == t) with
  | none =>
    have hPair : increment_monthly_quota t ms rows =
        (1, rows ++ [{ token_id := t, month_start := ms, month_count := 1 }]) := by
      rw [increment_monthly_quota, hf]
    rw [hPair]
    refine ⟨le_refl 1, by omega, ?_⟩
    have hfind : (rows ++
        [({ token_id := t, month_start := ms, month_count := 1 } : MonthlyRow)]).find?
          (fun r => r.token_id == t) =
        some { token_id := t, month_start := ms, month_count := 1 } := by
      rw [List.find?_append, hf]
      simp
    rw [monthCountOf, hfind]
  | some row =>
    have hcount : monthCountOf t rows = row.month_count := by
      rw [monthCountOf, hf]
    have htok : row.token_id = t := by
      simpa using List.find?_some hf
    by_cases hreset : ms > row.month_start
    · have hPair : increment_monthly_quota t ms rows =
          (1, rows.map (fun r => if r.token_id = t then
            { row with month_start := ms, month_count := 1 } else r)) := by
        rw [increment_monthly_quota, hf]
        simp only [if_pos hreset]
      rw [hPair]
      refine ⟨le_refl 1, by omega, ?_⟩
      rw [monthCountOf, find?_map_update t rows row _ hf (by simpa using htok)]
    · have hPair : increment_monthly_quota t ms rows =
          (row.month_count + 1, rows.map (fun r => if r.token_id = t then
            { row with month_count := row.month_count + 1 } else r)) := by
        rw [increment_monthly_quota, hf]
        simp only [if_neg hreset]
      rw [hPair]
      refine ⟨by omega, by omega, ?_⟩
      rw [monthCountOf, find?_map_update t rows row _ hf (by simpa using htok)]

def QuotaInv (t : String) (Wm Wh : Int) (i : Int) (st : QuotaStore) : Prop :=
  tokTotal t GRANULARITY_MINUTE st.buckets = i ∧
  tokTotal t GRANULARITY_HOUR st.buckets = i ∧
  (∀ r ∈ st.buckets, r.token_id = t → r.granularity = GRANULARITY_MINUTE →
    Wm ≤ r.bucket_start) ∧
  (∀ r ∈ st.buckets, r.token_id = t → r.granularity = GRANULARITY_HOUR →
    Wh ≤ r.bucket_start) ∧
  (st.buckets.map bucketKey).Nodup ∧
  0 ≤ monthCountOf t st.monthly ∧ monthCountOf t st.monthly ≤ i

lemma check_token_quota_unfold (mso : Int → Int) (t : String) (u : Int)
    (st : QuotaStore) :
    check_token_quota mso t u st =
      (TokenQuotaVerdict.new
        (sum_usage_buckets t GRANULARITY_MINUTE
          (u - Int.tmod u SECS_PER_MINUTE - 59 * SECS_PER_MINUTE)
          (increment_usage_bucket t (u - Int.tmod u SECS_PER_HOUR)
            GRANULARITY_HOUR
            (increment_usage_bucket t (u - Int.tmod u SECS_PER_MINUTE)
              GRANULARITY_MINUTE st.buckets)))
        TOKEN_HOURLY_LIMIT
        (sum_usage_buckets t GRANULARITY_HOUR
          (u - Int.tmod u SECS_PER_HOUR - 23 * SECS_PER_HOUR)
          (increment_usage_bucket t (u - Int.tmod u SECS_PER_HOUR)
            GRANULARITY_HOUR
            (increment_usage_bucket t (u - Int.tmod u SECS_PER_MINUTE)
              GRANULARITY_MINUTE st.buckets)))
        TOKEN_DAILY_LIMIT
        (increment_monthly_quota t (mso u) st.monthly).1
        TOKEN_MONTHLY_LIMIT,
       maybe_cleanup u
        { buckets := increment_usage_bucket t (u - Int.tmod u SECS_PER_HOUR)
            GRANULARITY_HOUR
            (increment_usage_bucket t (u - Int.tmod u SECS_PER_MINUTE)
              GRANULARITY_MINUTE st.buckets),
          monthly := (increment_monthly_quota t (mso u) st.monthly).2,
          cleanup_last_pruned := st.cleanup_last_pruned }) := rfl

lemma maybe_cleanup_buckets (t : String) (Wm Wh u : Int) (st : QuotaStore)
    (hclean_m : u - BUCKET_RETENTION_SECS ≤ Wm)
    (hclean_h : u - BUCKET_RETENTION_SECS ≤ Wh)
    (hmrows : ∀ r ∈ st.buckets, r.token_id = t →
      r.granularity = GRANULARITY_MINUTE → Wm ≤ r.bucket_start)
    (hhrows : ∀ r ∈ st.buckets, r.token_id = t →
      r.granularity = GRANULARITY_HOUR → Wh ≤ r.bucket_start)
    (hnd : (st.buckets.map bucketKey).Nodup) :
    tokTotal t GRANULARITY_MINUTE (maybe_cleanup u st).buckets =
      tokTotal t GRANULARITY_MINUTE st.buckets ∧
    tokTotal t GRANULARITY_HOUR (maybe_cleanup u st).buckets =
      tokTotal t GRANULARITY_HOUR st.buckets ∧
    (∀ r ∈ (maybe_cleanup u st).buckets, r ∈ st.buckets) ∧
    ((maybe_cleanup u st).buckets.map bucketKey).Nodup ∧
    (maybe_cleanup u st).monthly = st.monthly := by
  rw [maybe_cleanup]
  split
  · exact ⟨rfl, rfl, fun r hr => hr, hnd, rfl⟩
  · have hm1 : ∀ r ∈ delete_old_usage_buckets GRANULARITY_MINUTE
        (u - BUCKET_RETENTION_SECS) st.buckets, r ∈ st.buckets := by
      intro r hr
      exact List.mem_of_mem_filter hr
    refine ⟨?_, ?_, ?_, ?_, rfl⟩
    · rw [tokTotal_delete_old t GRANULARITY_MINUTE GRANULARITY_HOUR _ _
        (fun r hr h1 h2 => le_trans hclean_m (hmrows r (hm1 r hr) h1 h2))]
      rw [tokTotal_delete_old t GRANULARITY_MINUTE GRANULARITY_MINUTE _ _
        (fun r hr h1 h2 => le_trans hclean_m (hmrows r hr h1 h2))]
    · rw [tokTotal_delete_old t GRANULARITY_HOUR GRANULARITY_HOUR _ _
        (fun r hr h1 h2 => le_trans hclean_h (hhrows r (hm1 r hr) h1 h2))]
      rw [tokTotal_delete_old t GRANULARITY_HOUR GRANULARITY_MINUTE _ _
        (fun r hr h1 h2 => le_trans hclean_h (hhrows r hr h1 h2))]
    · intro r hr
      exact hm1 r (List.mem_of_mem_filter hr)
    · exact ((List.filter_sublist _).map bucketKey).nodup
        (((List.filter_sublist _).map bucketKey).nodup hnd)

lemma check_step (mso : Int → Int) (t : String) (u Wm Wh : Int) (i : Int)
    (st : QuotaStore)
    (hmbL : Wm ≤ u - Int.tmod u SECS_PER_MINUTE)
    (hmbU : u - Int.tmod u SECS_PER_MINUTE ≤ Wm + 59 * SECS_PER_MINUTE)
    (hhbL : Wh ≤ u - Int.tmod u SECS_PER_HOUR)
    (hhbU : u - Int.tmod u SECS_PER_HOUR ≤ Wh + 23 * SECS_PER_HOUR)
    (hclean_m : u - BUCKET_RETENTION_SECS ≤ Wm)
    (hclean_h : u - BUCKET_RETENTION_SECS ≤ Wh)
    (hInv : QuotaInv t Wm Wh i st) :
    QuotaInv t Wm Wh (i + 1) (check_token_quota mso t u st).2 ∧
    ∃ m : Int, 1 ≤ m ∧ m ≤ i + 1 ∧
      (check_token_quota mso t u st).1 =
        TokenQuotaVerdict.new (i + 1) TOKEN_HOURLY_LIMIT (i + 1)
          TOKEN_DAILY_LIMIT m TOKEN_MONTHLY_LIMIT := by
  obtain ⟨htm, hth, hmrows, hhrows, hnd, hm0, hmi⟩ := hInv
  have hgran : ¬ (GRANULARITY_MINUTE = GRANULARITY_HOUR) := by decide
  have hgran2 : ¬ (GRANULARITY_HOUR = GRANULARITY_MINUTE) := by decide
  set mb := u - Int.tmod u SECS_PER_MINUTE with hmbdef
  set hbk := u - Int.tmod u SECS_PER_HOUR with hhbdef
  set b1 := increment_usage_bucket t mb GRANULARITY_MINUTE st.buckets with hb1
  set b2 := increment_usage_bucket t hbk GRANULARITY_HOUR b1 with hb2
  have hnd1 : (b1.map bucketKey).Nodup := increment_keys_nodup _ _ _ _ hnd
  have hnd2 : (b2.map bucketKey).Nodup := increment_keys_nodup _ _ _ _ hnd1
  have htm1 : tokTotal t GRANULARITY_MINUTE b1 = i + 1 := by
    rw [hb1, tokTotal_increment_same t mb GRANULARITY_MINUTE st.buckets hnd, htm]
  have hth1 : tokTotal t GRANULARITY_HOUR b1 = i := by
    rw [hb1, tokTotal_increment_ne t GRANULARITY_HOUR t mb GRANULARITY_MINUTE
      st.buckets (fun hc => hgran hc.2), hth]
  have htm2 : tokTotal t GRANULARITY_MINUTE b2 = i + 1 := by
    rw [hb2, tokTotal_increment_ne t GRANULARITY_MINUTE t hbk GRANULARITY_HOUR
      b1 (fun hc => hgran2 hc.2), htm1]
  have hth2 : tokTotal t GRANULARITY_HOUR b2 = i + 1 := by
    rw [hb2, tokTotal_increment_same t hbk GRANULARITY_HOUR b1 hnd1, hth1]
  have hmrows1 : ∀ r ∈ b1, r.token_id = t → r.granularity = GRANULARITY_MINUTE →
      Wm ≤ r.bucket_start := by
    rw [hb1]
    exact increment_rows_prop _ t mb GRANULARITY_MINUTE st.buckets hmrows
      (fun _ _ => hmbL) (fun r hr => hr)
  have hhrows1 : ∀ r ∈ b1, r.token_id = t → r.granularity = GRANULARITY_HOUR →
      Wh ≤ r.bucket_start := by
    rw [hb1]
    exact increment_rows_prop _ t mb GRANULARITY_MINUTE st.buckets hhrows
      (fun _ hg => absurd hg hgran) (fun r hr => hr)
  have hmrows2 : ∀ r ∈ b2, r.token_id = t → r.granularity = GRANULARITY_MINUTE →
      Wm ≤ r.bucket_start := by
    rw [hb2]
    exact increment_rows_prop _ t hbk GRANULARITY_HOUR b1 hmrows1
      (fun _ hg => absurd hg hgran2) (fun r hr => hr)
  have hhrows2 : ∀ r ∈ b2, r.token_id = t → r.granularity = GRANULARITY_HOUR →
      Wh ≤ r.bucket_start := by
    rw [hb2]
    exact increment_rows_prop _ t hbk GRANULARITY_HOUR b1 hhrows1
      (fun _ _ => hhbL) (fun r hr => hr)
  have hsum_m : sum_usage_buckets t GRANULARITY_MINUTE
      (mb - 59 * SECS_PER_MINUTE) b2 = i + 1 := by
    rw [sum_eq_tokTotal t GRANULARITY_MINUTE _ b2
      (fun r hr h1 h2 => le_trans (by omega) (hmrows2 r hr h1 h2)), htm2]
  have hsum_h : sum_usage_buckets t GRANULARITY_HOUR
      (hbk - 23 * SECS_PER_HOUR) b2 = i + 1 := by
    rw [sum_eq_tokTotal t GRANULARITY_HOUR _ b2
      (fun r hr h1 h2 => le_trans (by omega) (hhrows2 r hr h1 h2)), hth2]
  obtain ⟨hm1, hm2, hm3⟩ := increment_monthly_spec t (mso u) st.monthly hm0
  have hclean := maybe_cleanup_buckets t Wm Wh u
    { buckets := b2, monthly := (increment_monthly_quota t (mso u) st.monthly).2,
      cleanup_last_pruned := st.cleanup_last_pruned }
    hclean_m hclean_h hmrows2 hhrows2 hnd2
  constructor
  · rw [check_token_quota_unfold]
    refine ⟨?_, ?_, ?_, ?_, ?_, ?_, ?_⟩
    · rw [hclean.1, htm2]
    · rw [hclean.2.1, hth2]
    · intro r hr h1 h2
      exact hmrows2 r (hclean.2.2.1 r hr) h1 h2
    · intro r hr h1 h2
      exact hhrows2 r (hclean.2.2.1 r hr) h1 h2
    · exact hclean.2.2.2.1
    · rw [hclean.2.2.2.2, hm3]
      omega
    · rw [hclean.2.2.2.2, hm3]
      omega
  · refine ⟨(increment_monthly_quota t (mso u) st.monthly).1, hm1, by omega, ?_⟩
    rw [check_token_quota_unfold]
    rw [hsum_m, hsum_h]

lemma check_step_inv (mso : Int → Int) (t : String) (u Wm Wh : Int) (i : Int)
    (st : QuotaStore)
    (hmbL : Wm ≤ u - Int.tmod u SECS_PER_MINUTE)
    (hhbL : Wh ≤ u - Int.tmod u SECS_PER_HOUR)
    (hclean_m : u - BUCKET_RETENTION_SECS ≤ Wm)
    (hclean_h : u - BUCKET_RETENTION_SECS ≤ Wh)
    (hInv : QuotaInv t Wm Wh i st) :
    QuotaInv t Wm Wh (i + 1) (check_token_quota mso t u st).2 := by
  obtain ⟨htm, hth, hmrows, hhrows, hnd, hm0, hmi⟩ := hInv
  have hgran : ¬ (GRANULARITY_MINUTE = GRANULARITY_HOUR) := by decide
  have hgran2 : ¬ (GRANULARITY_HOUR = GRANULARITY_MINUTE) := by decide
  set mb := u - Int.tmod u SECS_PER_MINUTE with hmbdef
  set hbk := u - Int.tmod u SECS_PER_HOUR with hhbdef
  set b1 := increment_usage_bucket t mb GRANULARITY_MINUTE st.buckets with hb1
  set b2 := increment_usage_bucket t hbk GRANULARITY_HOUR b1 with hb2
  have hnd1 : (b1.map bucketKey).Nodup := increment_keys_nodup _ _ _ _ hnd
  have hnd2 : (b2.map bucketKey).Nodup := increment_keys_nodup _ _ _ _ hnd1
  have htm1 : tokTotal t GRANULARITY_MINUTE b1 = i + 1 := by
    rw [hb1, tokTotal_increment_same t mb GRANULARITY_MINUTE st.buckets hnd, htm]
  have hth1 : tokTotal t GRANULARITY_HOUR b1 = i := by
    rw [hb1, tokTotal_increment_ne t GRANULARITY_HOUR t mb GRANULARITY_MINUTE
      st.buckets (fun hc => hgran hc.2), hth]
  have htm2 : tokTotal t GRANULARITY_MINUTE b2 = i + 1 := by
    rw [hb2, tokTotal_increment_ne t GRANULARITY_MINUTE t hbk GRANULARITY_HOUR
      b1 (fun hc => hgran2 hc.2), htm1]
  have hth2 : tokTotal t GRANULARITY_HOUR b2 = i + 1 := by
    rw [hb2, tokTotal_increment_same t hbk GRANULARITY_HOUR b1 hnd1, hth1]
  have hmrows2 : ∀ r ∈ b2, r.token_id = t → r.granularity = GRANULARITY_MINUTE →
      Wm ≤ r.bucket_start := by
    rw [hb2]
    refine increment_rows_prop _ t hbk GRANULARITY_HOUR b1 ?_
      (fun _ hg => absurd hg hgran2) (fun r hr => hr)
    rw [hb1]
    exact increment_rows_prop _ t mb GRANULARITY_MINUTE st.buckets hmrows
      (fun _ _ => hmbL) (fun r hr => hr)
  have hhrows2 : ∀ r ∈ b2, r.token_id = t → r.granularity = GRANULARITY_HOUR →
      Wh ≤ r.bucket_start := by
    rw [hb2]
    refine increment_rows_prop _ t hbk GRANULARITY_HOUR b1 ?_
      (fun _ _ => hhbL) (fun r hr => hr)
    rw [hb1]
    exact increment_rows_prop _ t mb GRANULARITY_MINUTE st.buckets hhrows
      (fun _ hg => absurd hg hgran) (fun r hr => hr)
  obtain ⟨hm1, hm2, hm3⟩ := increment_monthly_spec t (mso u) st.monthly hm0
  have hclean := maybe_cleanup_buckets t Wm Wh u
    { buckets := b2, monthly := (increment_monthly_quota t (mso u) st.monthly).2,
      cleanup_last_pruned := st.cleanup_last_pruned }
    hclean_m hclean_h hmrows2 hhrows2 hnd2
  rw [check_token_quota_unfold]
  refine ⟨?_, ?_, ?_, ?_, ?_, ?_, ?_⟩
  · rw [hclean.1, htm2]
  · rw [hclean.2.1, hth2]
  · intro r hr h1 h2
    exact hmrows2 r (hclean.2.2.1 r hr) h1 h2
  · intro r hr h1 h2
    exact hhrows2 r (hclean.2.2.1 r hr) h1 h2
  · exact hclean.2.2.2.1
  · rw [hclean.2.2.2.2, hm3]
    omega
  · rw [hclean.2.2.2.2, hm3]
    omega

lemma tokTotal_zero (t g : String) (rows : List BucketRow)
    (h : ∀ r ∈ rows, r.token_id ≠ t) : tokTotal t g rows = 0 := by
  induction rows with
  | nil => rfl
  | cons r rest ih =>
    rw [tokTotal, if_neg (fun hc => h r (List.mem_cons_self r rest) hc.1),
      ih (fun r2 h2 => h r2 (List.mem_cons_of_mem r h2)), add_zero]

lemma runQuota_inv (mso : Int → Int) (t : String) (Wm Wh : Int)
    (ts : List Int) :
    (∀ u ∈ ts, Wm ≤ u - Int.tmod u SECS_PER_MINUTE ∧
      Wh ≤ u - Int.tmod u SECS_PER_HOUR ∧
      u - BUCKET_RETENTION_SECS ≤ Wm ∧ u - BUCKET_RETENTION_SECS ≤ Wh) →
    ∀ (i : Int) (st : QuotaStore), QuotaInv t Wm Wh i st →
      QuotaInv t Wm Wh (i + (ts.length : Int)) (runQuotaChecks mso t ts st) := by
  induction ts with
  | nil =>
    intro _ i st hInv
    simpa [runQuotaChecks] using hInv
  | cons u rest ih =>
    intro hvalid i st hInv
    rw [runQuotaChecks, List.foldl_cons]
    obtain ⟨h1, h2, h3, h4⟩ := hvalid u (List.mem_cons_self u rest)
    have hstep := check_step_inv mso t u Wm Wh i st h1 h2 h3 h4 hInv
    have hrec := ih (fun u2 hu2 => hvalid u2 (List.mem_cons_of_mem u hu2))
      (i + 1) _ hstep
    rw [runQuotaChecks] at hrec
    have hidx : i + (((u :: rest).length : Nat) : Int) =
        i + 1 + ((rest.length : Nat) : Int) := by
      push_cast [List.length_cons]
      ring
    rw [hidx]
    exact hrec

lemma verdict_allowed_iff (H m : Int) (hm : m ≤ H) :
    ((TokenQuotaVerdict.new H TOKEN_HOURLY_LIMIT H TOKEN_DAILY_LIMIT m
      TOKEN_MONTHLY_LIMIT).allowed = true) ↔ H ≤ TOKEN_HOURLY_LIMIT := by
  have e1 : TOKEN_HOURLY_LIMIT = (100 : Int) := rfl
  have e2 : TOKEN_DAILY_LIMIT = (500 : Int) := rfl
  have e3 : TOKEN_MONTHLY_LIMIT = (3000 : Int) := rfl
  rw [e1, e2, e3]
  by_cases h1 : H > (100 : Int) <;> by_cases h2 : H > (500 : Int) <;>
    by_cases h3 : m > (3000 : Int) <;>
    simp [TokenQuotaVerdict.new, h1, h2, h3] <;> omega

/-- **C7.** For a token with no other recorded activity and every `H =
ts.length + 1 ≥ 1`, calling `check_token_quota` at the times `ts` and then at
`tH`, all within the same rolling hour (each call's minute bucket lies within
59 minutes at or before the final call's minute bucket; timestamps are
nonnegative), yields on the final call a verdict with `hourly_used =
min H hourly_limit` and `allowed ↔ H ≤ hourly_limit`, where the hourly count
is the sum of the minute buckets whose `bucket_start` is at least the current
minute bucket minus 59 minutes. -/
theorem check_token_quota_spec (monthStartOf : Int → Int) (token : String)
    (ts : List Int) (tH : Int) (st0 : QuotaStore)
    (hfresh_buckets : ∀ r ∈ st0.buckets, r.token_id ≠ token)
    (hfresh_monthly : st0.monthly.find? (fun r => r.token_id == token) = none)
    (hnd0 : (st0.buckets.map bucketKey).Nodup)
    (hpos : ∀ u ∈ ts ++ [tH], 0 ≤ u)
    (hwin : ∀ u ∈ ts ++ [tH],
      tH - Int.tmod tH SECS_PER_MINUTE - 59 * SECS_PER_MINUTE ≤
        u - Int.tmod u SECS_PER_MINUTE ∧
      u - Int.tmod u SECS_PER_MINUTE ≤ tH - Int.tmod tH SECS_PER_MINUTE) :
    (check_token_quota monthStartOf token tH
        (runQuotaChecks monthStartOf token ts st0)).1.hourly_used =
      min ((ts.length : Int) + 1) TOKEN_HOURLY_LIMIT ∧
    ((check_token_quota monthStartOf token tH
        (runQuotaChecks monthStartOf token ts st0)).1.allowed = true ↔
      ((ts.length : Int) + 1) ≤ TOKEN_HOURLY_LIMIT) := by
  have he1 : SECS_PER_MINUTE = (60 : Int) := rfl
  have he2 : SECS_PER_HOUR = (3600 : Int) := rfl
  have he3 : BUCKET_RETENTION_SECS = (172800 : Int) := by
    norm_num [BUCKET_RETENTION_SECS]
  have htH0 := hpos tH (List.mem_append_right _ (List.mem_singleton.mpr rfl))
  have ht1 : 0 ≤ Int.tmod tH SECS_PER_MINUTE := by
    rw [he1]
    exact Int.tmod_nonneg 60 htH0
  have ht2 : Int.tmod tH SECS_PER_MINUTE < SECS_PER_MINUTE := by
    rw [he1]
    exact Int.tmod_lt_of_pos tH (by decide)
  have ht3 : 0 ≤ Int.tmod tH SECS_PER_HOUR := by
    rw [he2]
    exact Int.tmod_nonneg 3600 htH0
  have ht4 : Int.tmod tH SECS_PER_HOUR < SECS_PER_HOUR := by
    rw [he2]
    exact Int.tmod_lt_of_pos tH (by decide)
  have hvalid : ∀ u ∈ ts,
      (tH - Int.tmod tH SECS_PER_MINUTE - 59 * SECS_PER_MINUTE) ≤
        u - Int.tmod u SECS_PER_MINUTE ∧
      (tH - Int.tmod tH SECS_PER_HOUR - 23 * SECS_PER_HOUR) ≤
        u - Int.tmod u SECS_PER_HOUR ∧
      u - BUCKET_RETENTION_SECS ≤
        tH - Int.tmod tH SECS_PER_MINUTE - 59 * SECS_PER_MINUTE ∧
      u - BUCKET_RETENTION_SECS ≤
        tH - Int.tmod tH SECS_PER_HOUR - 23 * SECS_PER_HOUR := by
    intro u hu
    have hu0 := hpos u (List.mem_append_left _ hu)
    have hw := hwin u (List.mem_append_left _ hu)
    have hu1 : 0 ≤ Int.tmod u SECS_PER_MINUTE := by
      rw [he1]
      exact Int.tmod_nonneg 60 hu0
    have hu2 : Int.tmod u SECS_PER_MINUTE < SECS_PER_MINUTE := by
      rw [he1]
      exact Int.tmod_lt_of_pos u (by decide)
    have hu3 : 0 ≤ Int.tmod u SECS_PER_HOUR := by
      rw [he2]
      exact Int.tmod_nonneg 3600 hu0
    have hu4 : Int.tmod u SECS_PER_HOUR < SECS_PER_HOUR := by
      rw [he2]
      exact Int.tmod_lt_of_pos u (by decide)
    simp only [he1, he2, he3] at hw hu1 hu2 hu3 hu4 ht1 ht2 ht3 ht4 ⊢
    refine ⟨by omega, by omega, by omega, by omega⟩
  have hInv0 : QuotaInv token
      (tH - Int.tmod tH SECS_PER_MINUTE - 59 * SECS_PER_MINUTE)
      (tH - Int.tmod tH SECS_PER_HOUR - 23 * SECS_PER_HOUR) 0 st0 := by
    refine ⟨tokTotal_zero _ _ _ hfresh_buckets, tokTotal_zero _ _ _ hfresh_buckets,
      ?_, ?_, hnd0, ?_, ?_⟩
    · intro r hr h1 _
      exact absurd h1 (hfresh_buckets r hr)
    · intro r hr h1 _
      exact absurd h1 (hfresh_buckets r hr)
    · rw [monthCountOf, hfresh_monthly]
    · rw [monthCountOf, hfresh_monthly]
  have hrun := runQuota_inv monthStartOf token
    (tH - Int.tmod tH SECS_PER_MINUTE - 59 * SECS_PER_MINUTE)
    (tH - Int.tmod tH SECS_PER_HOUR - 23 * SECS_PER_HOUR) ts hvalid 0 st0 hInv0
  rw [zero_add] at hrun
  have hfin := check_step monthStartOf token tH
    (tH - Int.tmod tH SECS_PER_MINUTE - 59 * SECS_PER_MINUTE)
    (tH - Int.tmod tH SECS_PER_HOUR - 23 * SECS_PER_HOUR) (ts.length : Int)
    (runQuotaChecks monthStartOf token ts st0)
    (by simp only [he1] at ht1 ht2 ⊢; omega)
    (by simp only [he1] at ht1 ht2 ⊢; omega)
    (by simp only [he2] at ht3 ht4 ⊢; omega)
    (by simp only [he2] at ht3 ht4 ⊢; omega)
    (by simp only [he1, he3] at ht1 ht2 ⊢; omega)
    (by simp only [he2, he3] at ht3 ht4 ⊢; omega)
    hrun
  obtain ⟨-, m, hm1, hm2, hverdict⟩ := hfin
  rw [hverdict]
  exact ⟨rfl, verdict_allowed_iff _ m hm2⟩

/-- Witness for C7: a single call on a fresh store at time 0. -/
theorem check_token_quota_spec_witness :
    (check_token_quota (fun _ => 0) "T" 0
        (runQuotaChecks (fun _ => 0) "T" [] ⟨[], [], 0⟩)).1.hourly_used =
      min ((([] : List Int).length : Int) + 1) TOKEN_HOURLY_LIMIT :=
  (check_token_quota_spec (fun _ => 0) "T" [] 0 ⟨[], [], 0⟩
    (by simp) rfl (by simp) (by decide) (by decide)).1

end TavilyHikari
